import Mathlib

/-
Verification of the injection decision engine of the rollup html plugin
(dist build in src/dist/index.es.js).  The HTML tree, the option
normalizers, the bundle classifier, the tag injector, the externals
processor and the static decorators are embedded as executable Lean
definitions, and the behavioural claims about them are settled below.
-/

set_option maxHeartbeats 1000000

/-- An HTML node: an element with a tag name, an ordered attribute list and
an ordered child list, or a text node.  Attributes model the raw attribute
strings the source passes to the parser constructor, in order. -/
inductive Node where
  | element (tagName : String) (attrs : List (String × String)) (children : List Node)
  | text (content : String)

mutual

/-- Decidable equality of nodes, written by hand because the automatic
derivation does not support the nested occurrence of List. -/
def Node.decEq : (a b : Node) → Decidable (a = b)
  | .text s, .text t =>
    match String.decEq s t with
    | isTrue h => isTrue (by rw [h])
    | isFalse h => isFalse (fun hh => by cases hh; exact h rfl)
  | .text _, .element _ _ _ => isFalse nofun
  | .element _ _ _, .text _ => isFalse nofun
  | .element t1 a1 c1, .element t2 a2 c2 =>
    if ht : t1 = t2 then
      if ha : a1 = a2 then
        match Node.decEqList c1 c2 with
        | isTrue hc => isTrue (by rw [ht, ha, hc])
        | isFalse hc => isFalse (fun h => by injection h; contradiction)
      else isFalse (fun h => by injection h; contradiction)
    else isFalse (fun h => by injection h; contradiction)

/-- Decidable equality of node lists, mutually with Node.decEq. -/
def Node.decEqList : (a b : List Node) → Decidable (a = b)
  | [], [] => isTrue rfl
  | [], _ :: _ => isFalse nofun
  | _ :: _, [] => isFalse nofun
  | x :: xs, y :: ys =>
    match Node.decEq x y, Node.decEqList xs ys with
    | isTrue h1, isTrue h2 => isTrue (by rw [h1, h2])
    | isFalse h1, _ => isFalse (fun h => by injection h; contradiction)
    | _, isFalse h2 => isFalse (fun h => by injection h; contradiction)

end

instance : DecidableEq Node := Node.decEq

/-- The text node inserted by addNewLine before each injected tag. -/
def nlNode : Node := Node.text "\n  "

/-- Attribute lookup, modelling the attributes accessor of an element; a
text node has no attributes. -/
def attrOf (n : Node) (key : String) : Option String :=
  match n with
  | Node.element _ attrs _ => (attrs.find? (fun p => p.1 = key)).map (fun p => p.2)
  | Node.text _ => none

/-- Tag name of a node, none for text nodes. -/
def tagOf (n : Node) : Option String :=
  match n with
  | Node.element t _ _ => some t
  | Node.text _ => none

/-- True when the last character of the string is the path separator, the
meaning of the endsWith slash test in the source. -/
def endsWithSlash (s : String) : Bool := s.data.getLast? = some '/'

/-- normalizePrefix from the source: an absent option becomes the empty
string, and a nonempty string not already ending in the separator gets one
separator appended. -/
def normalizePrefix (p : Option String) : String :=
  match p with
  | none => ""
  | some s => if s ≠ "" ∧ ¬ endsWithSlash s then s ++ "/" else s

/-- Characters of the base name: everything after the last slash. -/
def baseNameChars (cs : List Char) : List Char :=
  (cs.reverse.takeWhile (fun c => c ≠ '/')).reverse

/-- Split a base name into name and extension at the last dot, following
the path parse rule of the platform: the extension starts at the last dot
unless that dot is the first character, in which case there is none. -/
def extSplitChars (base : List Char) : List Char × List Char :=
  match base.reverse.findIdx? (fun c => c = '.') with
  | none => (base, [])
  | some i =>
    let d := base.length - 1 - i
    if d = 0 then (base, []) else (base.take d, base.drop d)

/-- The name part of path parse on a file name: base name without the
extension.  This is the stem used to correlate co-named output files. -/
def parsedName (fileName : String) : String :=
  String.mk (extSplitChars (baseNameChars fileName.data)).1

/-- The ext part of path parse on a file name, dot included. -/
def parsedExt (fileName : String) : String :=
  String.mk (extSplitChars (baseNameChars fileName.data)).2

/-- Drop the first character, modelling slice one on the extension. -/
def slice1 (s : String) : String := String.mk (s.data.drop 1)

/-- The value of the inject option as it reaches the emission phase: the
undefined value, a boolean, or a string token. -/
inductive InjectOpt where
  | undef
  | bool (b : Bool)
  | str (s : String)
deriving DecidableEq

/-- The value of the preload option: undefined, a boolean, an array of
names, or an already set shaped collection of names. -/
inductive PreloadVal where
  | undef
  | boolv (b : Bool)
  | arr (l : List String)
  | setv (l : List String)
deriving DecidableEq

/-- normalizePreload from the source: a falsy value is replaced by the
empty array, then an array is turned into a set; any other value is
returned unchanged. -/
def normalizePreload (p : PreloadVal) : PreloadVal :=
  let p1 := match p with
    | PreloadVal.undef => PreloadVal.arr []
    | PreloadVal.boolv false => PreloadVal.arr []
    | other => other
  match p1 with
  | PreloadVal.arr l => PreloadVal.setv l
  | other => other

/-- The membership test the emission loop performs on the preload value.
Only a set has the member method; calling it on any other value is a
runtime type error of the host language. -/
def hasMember (p : PreloadVal) (s : String) : Except String Bool :=
  match p with
  | PreloadVal.setv l => Except.ok (l.contains s)
  | _ => Except.error "TypeError: preload.has is not a function"

/-- extensionToType from the source: the css extension maps to the style
link type, the js extension to the script link type, anything else to
nothing. -/
def extensionToType (ext : String) : Option String :=
  if ext = "css" then some "style"
  else if ext = "js" then some "script"
  else none

/-- One build output file as the plugin sees it. -/
structure OutputFile where
  fileName : String
  type : String
  name : String
  isEntry : Bool
  isDynamicEntry : Bool
deriving DecidableEq

/-- Lookup in an insertion ordered string map, modelled as an association
list. -/
def lookupA (l : List (String × String)) (k : String) : Option String :=
  (l.find? (fun p => p.1 = k)).map (fun p => p.2)

/-- Keyed assignment into an insertion ordered string map: an existing key
is overwritten in place, a new key is appended. -/
def insertAssoc (l : List (String × String)) (k v : String) : List (String × String) :=
  if l.any (fun p => p.1 = k) then
    l.map (fun p => if p.1 = k then (k, v) else p)
  else l ++ [(k, v)]

/-- The accumulator of the bundle classifier fold. -/
structure NameMaps where
  entries : List (String × String)
  dynamicEntries : List (String × String)
deriving DecidableEq

/-- bundleReducer from the source: only code chunks contribute; an entry
chunk records its stem in entries, otherwise a dynamic entry chunk records
its stem in dynamicEntries, both mapped to the logical chunk name. -/
def bundleReducer (prev : NameMaps) (cur : OutputFile) : NameMaps :=
  if cur.type = "chunk" then
    let name := parsedName cur.fileName
    if cur.isEntry then
      { prev with entries := insertAssoc prev.entries name cur.name }
    else if cur.isDynamicEntry then
      { prev with dynamicEntries := insertAssoc prev.dynamicEntries name cur.name }
    else prev
  else prev

/-- The two element lists the injector mutates: the children of head and
the children of body. -/
structure DocState where
  head : List Node
  body : List Node
deriving DecidableEq

/-- The crossorigin attribute piece: present only for a truthy value. -/
def corsAttrs (crossorigin : Option String) : List (String × String) :=
  match crossorigin with
  | some c => if c = "" then [] else [("crossorigin", c)]
  | none => []

/-- The module attribute piece baked into every script tag the injector
closure produces. -/
def moduleAttrs (modules nomodule : Bool) : List (String × String) :=
  if modules then [("type", "module")]
  else if nomodule then [("nomodule", "")]
  else []

/-- The closure returned by injectCSSandJSFactory: append a stylesheet
link or a script tag, preceded by a newline text node, choosing head or
body from the tag type and the position argument. -/
def injectCSSandJS (modules nomodule : Bool) (st : DocState)
    (fileName ty : String) (pos : InjectOpt) (crossorigin : Option String) : DocState :=
  if ty = "css" then
    let tag := Node.element "link"
      ([("rel", "stylesheet")] ++ corsAttrs crossorigin ++ [("href", fileName)]) []
    if pos = InjectOpt.str "body" then { st with body := st.body ++ [nlNode, tag] }
    else { st with head := st.head ++ [nlNode, tag] }
  else
    let tag := Node.element "script"
      (moduleAttrs modules nomodule ++ corsAttrs crossorigin ++ [("src", fileName)]) []
    if pos = InjectOpt.str "head" then { st with head := st.head ++ [nlNode, tag] }
    else { st with body := st.body ++ [nlNode, tag] }

/-- One configured external resource.  The processor of the source reads
only pos, file, type and crossorigin; the insertPoint field carried by
the configuration record of the specification is never consulted. -/
structure External where
  pos : Option String
  file : String
  type : Option String
  crossorigin : Option String
  insertPoint : Option String
deriving DecidableEq

/-- Truthy selection: the option value if it is a nonempty string,
otherwise the fallback. -/
def orTruthy (v : Option String) (fallback : String) : String :=
  match v with
  | some s => if s = "" then fallback else s
  | none => fallback

/-- The body of the externals loop for one external at one position: an
external whose position matches is injected with an undefined position
argument and its type or the extension of its file. -/
def extStep (modules nomodule : Bool) (processPos : String)
    (st : DocState) (e : External) : DocState :=
  if e.pos = some processPos then
    injectCSSandJS modules nomodule st e.file
      (orTruthy e.type (slice1 (parsedExt e.file))) InjectOpt.undef e.crossorigin
  else st

/-- The processor returned by extrenalsProcessorFactory: nothing without
an externals list, otherwise the loop over the list at one position. -/
def processExternals (modules nomodule : Bool) (externals : Option (List External))
    (processPos : String) (st : DocState) : DocState :=
  match externals with
  | none => st
  | some exts => exts.foldl (extStep modules nomodule processPos) st

/-- The body of the generated files loop for one output file: an entry
stem is injected as a tag, otherwise a dynamic entry stem is preload
tested and, when the test passes and the extension maps to a link type, a
preload link is appended to head.  The preload membership test may raise
a runtime type error. -/
def processFile (modules nomodule : Bool) (inject : InjectOpt)
    (entries dynamicEntries : List (String × String)) (preload : PreloadVal)
    (pfx : String) (st : DocState) (fileName : String) : Except String DocState :=
  let name := parsedName fileName
  let injectType := slice1 (parsedExt fileName)
  let filePath := pfx ++ fileName
  if (lookupA entries name).isSome then
    Except.ok (injectCSSandJS modules nomodule st filePath injectType inject none)
  else
    match lookupA dynamicEntries name with
    | some logical =>
      match hasMember preload logical with
      | Except.error e => Except.error e
      | Except.ok b =>
        if b then
          match extensionToType injectType with
          | some linkType =>
            Except.ok { st with head := st.head ++
              [nlNode, Node.element "link"
                [("rel", "preload"), ("href", filePath), ("as", linkType)] []] }
          | none => Except.ok st
        else Except.ok st
    | none => Except.ok st

/-- The generated files phase of generateBundle: skipped entirely when
inject is the boolean false, otherwise the classifier fold builds the two
name maps, the preload and path options are normalized, and every output
file runs through processFile in bundle order. -/
def injectGenerated (modules nomodule : Bool) (inject : InjectOpt)
    (preload : PreloadVal) (onlinePath : Option String)
    (files : List OutputFile) (st : DocState) : Except String DocState :=
  if inject = InjectOpt.bool false then Except.ok st
  else
    let maps := files.foldl bundleReducer ⟨[], []⟩
    let pre := normalizePreload preload
    let pfx := normalizePrefix onlinePath
    files.foldlM
      (fun s f => processFile modules nomodule inject
        maps.entries maps.dynamicEntries pre pfx s f.fileName) st

/-- The whole tag emission phase in source order: externals at the before
position, then the generated files, then externals at the after
position.  A raised error aborts before the after externals run. -/
def tagPhase (modules nomodule : Bool) (externals : Option (List External))
    (inject : InjectOpt) (preload : PreloadVal) (onlinePath : Option String)
    (files : List OutputFile) (st : DocState) : Except String DocState :=
  let st1 := processExternals modules nomodule externals "before" st
  match injectGenerated modules nomodule inject preload onlinePath files st1 with
  | Except.ok st2 => Except.ok (processExternals modules nomodule externals "after" st2)
  | Except.error e => Except.error e

/-- The values of the external position enumeration. -/
def externalPositionValues : List String := ["before", "after"]

/-- The values of the crossorigin enumeration. -/
def crossoriginValues : List String := ["anonymous", "use-credentials"]

/-- checkEnum from the source: a falsy value passes, otherwise the value
must be among the enumeration values. -/
def checkEnum (values : List String) (val : Option String) : Bool :=
  match val with
  | none => true
  | some v => v = "" || values.contains v

/-- The externals validation loop of buildStart: the first entry with a
truthy position outside the position enumeration, or a truthy crossorigin
outside the crossorigin enumeration, raises a fatal configuration error;
otherwise the list passes unchanged. -/
def validateExternalsList : List External → Except String Unit
  | [] => Except.ok ()
  | e :: rest =>
    if ¬ checkEnum externalPositionValues e.pos then
      Except.error ("Invalid position for the extrenal: " ++ e.pos.getD "undefined")
    else if ¬ checkEnum crossoriginValues e.crossorigin then
      Except.error ("Invalid crossorigin argument for the extrenal: "
        ++ e.crossorigin.getD "undefined")
    else validateExternalsList rest

/-- The externals branch of buildStart: no list validates trivially, a
present list passes through the loop and is kept unchanged on success. -/
def validateExternals (externals : Option (List External)) :
    Except String (Option (List External)) :=
  match externals with
  | none => Except.ok none
  | some exts =>
    match validateExternalsList exts with
    | Except.ok _ => Except.ok (some exts)
    | Except.error e => Except.error e

/-- First element with the given tag name in preorder over a forest,
modelling the query selector descendant search. -/
def findTag (tag : String) : List Node → Option Node
  | [] => none
  | Node.text _ :: rest => findTag tag rest
  | Node.element t a c :: rest =>
    if t = tag then some (Node.element t a c)
    else
      match findTag tag c with
      | some n => some n
      | none => findTag tag rest

/-- All elements with the given tag name in preorder over a forest,
modelling the query selector all descendant search. -/
def findAllTag (tag : String) : List Node → List Node
  | [] => []
  | Node.text _ :: rest => findAllTag tag rest
  | Node.element t a c :: rest =>
    (if t = tag then [Node.element t a c] else [])
      ++ findAllTag tag c ++ findAllTag tag rest

/-- querySelector on a node: descendant search below it. -/
def querySelector (n : Node) (tag : String) : Option Node :=
  match n with
  | Node.element _ _ c => findTag tag c
  | Node.text _ => none

/-- Append a child to an element node. -/
def appendChildN (n child : Node) : Node :=
  match n with
  | Node.element t a c => Node.element t a (c ++ [child])
  | Node.text s => Node.text s

/-- Prepend a child to an element node, the unshift branch. -/
def unshiftChildN (n child : Node) : Node :=
  match n with
  | Node.element t a c => Node.element t a (child :: c)
  | Node.text s => Node.text s

/-- getChildElement from the source: return the first matching descendant
if any, otherwise create an empty element and append or prepend it
according to the flag.  Returns the obtained child and the updated
node. -/
def getChildElement (node : Node) (tag : String) (append : Bool) : Node × Node :=
  match querySelector node tag with
  | some child => (child, node)
  | none =>
    let child := Node.element tag [] []
    (child, if append then appendChildN node child else unshiftChildN node child)

/-- The accessor phase of generateBundle: fetch or create head with the
prepend flag, then fetch or create body with the append default.  Returns
head, body and the updated html node. -/
def accessHeadBody (html : Node) : Node × Node × Node :=
  let hp := getChildElement html "head" false
  let bp := getChildElement hp.2 "body" true
  (hp.1, bp.1, bp.2)

/-- exchangeChild on a child list: replace the first child equal to the
old node by the new node; no occurrence leaves the list unchanged. -/
def exchangeChild (children : List Node) (oldNode newNode : Node) : List Node :=
  match children with
  | [] => []
  | c :: rest =>
    if c = oldNode then newNode :: rest
    else c :: exchangeChild rest oldNode newNode

/-- The shared merge step of the meta and favicon decorators: find in the
snapshot the first node whose attribute at the key has the wanted value;
replace it in the child list when found, otherwise append a newline and
the new node. -/
def mergeByAttr (key keyVal : String) (snapshot h : List Node) (newNode : Node) : List Node :=
  match snapshot.find? (fun n => attrOf n key = some keyVal) with
  | some old => exchangeChild h old newNode
  | none => h ++ [nlNode, newNode]

/-- The meta element built for one configured name and content pair. -/
def metaElem (nm content : String) : Node :=
  Node.element "meta" [("name", nm), ("content", content)] []

/-- The meta decorator: one snapshot of all meta descendants of head,
then for each configured pair replace the first meta with that name or
append a new one. -/
def metaDec (metaCfg : List (String × String)) (h : List Node) : List Node :=
  let nodes := findAllTag "meta" h
  metaCfg.foldl (fun acc p => mergeByAttr "name" p.1 nodes acc (metaElem p.1 p.2)) h

/-- Set the content of the first element with the given tag name in
preorder, returning the updated forest and whether one was found. -/
def setContentFirst (tag content : String) : List Node → List Node × Bool
  | [] => ([], false)
  | Node.text s :: rest =>
    let r := setContentFirst tag content rest
    (Node.text s :: r.1, r.2)
  | Node.element t a c :: rest =>
    if t = tag then (Node.element t a [Node.text content] :: rest, true)
    else
      let rc := setContentFirst tag content c
      if rc.2 then (Node.element t a rc.1 :: rest, true)
      else
        let rr := setContentFirst tag content rest
        (Node.element t a c :: rr.1, rr.2)

/-- The title decorator: set the content of the first title element, or
append a newline and a fresh title with that content. -/
def titleDec (title : String) (h : List Node) : List Node :=
  let r := setContentFirst "title" title h
  if r.2 then r.1
  else h ++ [nlNode, Node.element "title" [] [Node.text title]]

/-- The favicon link element built from the favicon path base name. -/
def favElem (favicon : String) : Node :=
  Node.element "link"
    [("rel", "shortcut icon"), ("href", String.mk (baseNameChars favicon.data))] []

/-- The favicon decorator: replace the first link with the shortcut icon
relation or append a new one. -/
def favDec (favicon : String) (h : List Node) : List Node :=
  mergeByAttr "rel" "shortcut icon" (findAllTag "link" h) h (favElem favicon)

/-- No element with the given tag name strictly below this node. -/
def noTagInside (tag : String) (n : Node) : Bool :=
  match n with
  | Node.text _ => true
  | Node.element _ _ c => (findAllTag tag c).isEmpty

/-- Every element of that tag in the forest occurs only at top level. -/
def topOnly (tag : String) (h : List Node) : Bool :=
  h.all (noTagInside tag)

/-- Number of direct children carrying the tag name. -/
def countDirectTag (tag : String) (l : List Node) : Nat :=
  (l.filter (fun n => tagOf n = some tag)).length

/-- Children of a node, empty for text nodes. -/
def childrenOf (n : Node) : List Node :=
  match n with
  | Node.element _ _ c => c
  | Node.text _ => []

/-- Exactly one tag was appended to head, preceded by the newline text
node, and body is untouched. -/
def placedInHead (st st2 : DocState) : Prop :=
  (∃ t, st2.head = st.head ++ [nlNode, t]) ∧ st2.body = st.body

/-- Exactly one tag was appended to body, preceded by the newline text
node, and head is untouched. -/
def placedInBody (st st2 : DocState) : Prop :=
  (∃ t, st2.body = st.body ++ [nlNode, t]) ∧ st2.head = st.head

/-- The URL attribute of an injected tag: src of a script, href of a
link. -/
def tagURL (n : Node) : Option String :=
  match n with
  | Node.element t attrs _ =>
    if t = "script" then lookupA attrs "src"
    else if t = "link" then lookupA attrs "href"
    else none
  | Node.text _ => none

/-- The string ends with one separator not preceded by another. -/
def endsWithExactlyOneSlash (s : String) : Prop :=
  s.data.getLast? = some '/' ∧ ¬ s.data.dropLast.getLast? = some '/'

/-- A position option value the validation accepts: absent, empty, or one
of the enumeration members. -/
def validPosVal (v : Option String) : Prop :=
  v = none ∨ v = some "" ∨ v = some "before" ∨ v = some "after"

/-- A crossorigin option value the validation accepts. -/
def validCorsVal (v : Option String) : Prop :=
  v = none ∨ v = some "" ∨ v = some "anonymous" ∨ v = some "use-credentials"

theorem validPosVal_iff_checkEnum (v : Option String) :
    checkEnum externalPositionValues v = true ↔ validPosVal v := by
  cases v with
  | none => simp [checkEnum, validPosVal]
  | some s =>
    simp only [checkEnum, externalPositionValues, validPosVal, Bool.or_eq_true,
      decide_eq_true_eq, List.elem_iff, List.mem_cons, List.not_mem_nil, or_false,
      Option.some.injEq, reduceCtorEq, false_or]

theorem validCorsVal_iff_checkEnum (v : Option String) :
    checkEnum crossoriginValues v = true ↔ validCorsVal v := by
  cases v with
  | none => simp [checkEnum, validCorsVal]
  | some s =>
    simp only [checkEnum, crossoriginValues, validCorsVal, Bool.or_eq_true,
      decide_eq_true_eq, List.elem_iff, List.mem_cons, List.not_mem_nil, or_false,
      Option.some.injEq, reduceCtorEq, false_or]

theorem validateExternalsList_ok_iff (exts : List External) :
    validateExternalsList exts = Except.ok () ↔
      ∀ e ∈ exts, validPosVal e.pos ∧ validCorsVal e.crossorigin := by
  induction exts with
  | nil => simp [validateExternalsList]
  | cons e rest ih =>
    by_cases hp : checkEnum externalPositionValues e.pos = true
    · by_cases hc : checkEnum crossoriginValues e.crossorigin = true
      · rw [validateExternalsList, if_neg (not_not_intro hp), if_neg (not_not_intro hc)]
        rw [ih]
        constructor
        · intro h x hx
          rcases List.mem_cons.mp hx with hx1 | hx2
          · subst hx1
            exact ⟨(validPosVal_iff_checkEnum _).mp hp, (validCorsVal_iff_checkEnum _).mp hc⟩
          · exact h x hx2
        · intro h x hx
          exact h x (List.mem_cons_of_mem _ hx)
      · rw [validateExternalsList, if_neg (not_not_intro hp), if_pos hc]
        constructor
        · intro h; cases h
        · intro h
          exact absurd ((validCorsVal_iff_checkEnum _).mpr (h e (List.mem_cons_self _ _)).2) hc
    · rw [validateExternalsList, if_pos hp]
      constructor
      · intro h; cases h
      · intro h
        exact absurd ((validPosVal_iff_checkEnum _).mpr (h e (List.mem_cons_self _ _)).1) hp

theorem validateExternalsList_total (exts : List External) :
    validateExternalsList exts = Except.ok () ∨
      ∃ msg, validateExternalsList exts = Except.error msg := by
  induction exts with
  | nil => exact Or.inl rfl
  | cons e rest ih =>
    by_cases hp : checkEnum externalPositionValues e.pos = true
    · by_cases hc : checkEnum crossoriginValues e.crossorigin = true
      · rw [validateExternalsList, if_neg (not_not_intro hp), if_neg (not_not_intro hc)]
        exact ih
      · rw [validateExternalsList, if_neg (not_not_intro hp), if_pos hc]
        exact Or.inr ⟨_, rfl⟩
    · rw [validateExternalsList, if_pos hp]
      exact Or.inr ⟨_, rfl⟩

/-- Claim C6 (corrected): validation of the externals list raises a fatal
error exactly when some entry has a truthy position outside the position
enumeration or a truthy crossorigin outside the crossorigin enumeration;
absent or empty values pass, and a passing list is returned unchanged. -/
theorem C6_externals_validation (exts : List External) :
    (validateExternals (some exts) = Except.ok (some exts) ↔
      ∀ e ∈ exts, validPosVal e.pos ∧ validCorsVal e.crossorigin) ∧
    ((∃ msg, validateExternals (some exts) = Except.error msg) ↔
      ¬ ∀ e ∈ exts, validPosVal e.pos ∧ validCorsVal e.crossorigin) := by
  constructor
  · constructor
    · intro h
      rcases validateExternalsList_total exts with hok | ⟨msg, herr⟩
      · exact (validateExternalsList_ok_iff exts).mp hok
      · rw [validateExternals, herr] at h
        cases h
    · intro h
      rw [validateExternals, (validateExternalsList_ok_iff exts).mpr h]
  · constructor
    · rintro ⟨msg, hmsg⟩ hall
      rw [validateExternals, (validateExternalsList_ok_iff exts).mpr hall] at hmsg
      cases hmsg
    · intro h
      rcases validateExternalsList_total exts with hok | ⟨msg, herr⟩
      · exact absurd ((validateExternalsList_ok_iff exts).mp hok) h
      · exact ⟨msg, by rw [validateExternals, herr]⟩

/-- Witness for C6: a list whose entries carry accepted values validates
to itself unchanged. -/
theorem C6_externals_validation_witness :
    validateExternals (some [⟨some "before", "a.js", none, none, none⟩])
      = Except.ok (some [⟨some "before", "a.js", none, none, none⟩]) :=
  (C6_externals_validation [⟨some "before", "a.js", none, none, none⟩]).1.mpr
    (by
      intro e he
      rw [List.mem_singleton] at he
      subst he
      exact ⟨Or.inr (Or.inr (Or.inl rfl)), Or.inl rfl⟩)

/-- Counterexample to C6 as stated: an external whose position is absent
is not one of the two position tokens, yet validation raises no error. -/
theorem C6_counterexample :
    validateExternals (some [⟨none, "x.js", none, none, none⟩])
      = Except.ok (some [⟨none, "x.js", none, none, none⟩]) ∧
    (External.pos ⟨none, "x.js", none, none, none⟩) ≠ some "before" ∧
    (External.pos ⟨none, "x.js", none, none, none⟩) ≠ some "after" :=
  ⟨rfl, by decide, by decide⟩

/-- Claim C5 (corrected): the normalized path option ends with at least
one trailing separator, pre-existing extra separators included, or is the
empty string when the option is unset or empty.  It does not always end
with exactly one separator. -/
theorem C5_prefix_normalization (p : Option String) :
    ((p = none ∨ p = some "") → normalizePrefix p = "") ∧
    (∀ s, p = some s → s ≠ "" → endsWithSlash ( normalizePrefix p) = true) := by
  constructor
  · rintro (rfl | rfl) <;> rfl
  · rintro s rfl hs
    rw [normalizePrefix]
    by_cases hw : endsWithSlash s = true
    · rw [if_neg (fun hcond => hcond.2 hw)]
      exact hw
    · rw [if_pos ⟨hs, hw⟩]
      simp only [endsWithSlash, String.data_append, decide_eq_true_eq]
      rw [List.getLast?_append_of_ne_nil]
      · rfl
      · intro h
        cases h
  
/-- Witness for C5: a nonempty input gains a trailing separator and an
absent input normalizes to the empty string. -/
theorem C5_prefix_normalization_witness :
    endsWithSlash ( normalizePrefix (some "ab")) = true ∧ normalizePrefix none = "" :=
  ⟨(C5_prefix_normalization (some "ab")).2 "ab" rfl (by decide),
   (C5_prefix_normalization none).1 (Or.inl rfl)⟩

/-- Counterexample to C5 as stated: an input already carrying two
trailing separators is returned unchanged, so the result is nonempty and
does not end with exactly one separator. -/
theorem C5_counterexample :
    normalizePrefix (some "a//") = "a//" ∧
    normalizePrefix (some "a//") ≠ "" ∧
    ¬ endsWithExactlyOneSlash ( normalizePrefix (some "a//")) := by
  refine ⟨by decide, by decide, ?_⟩
  intro h
  exact h.2 (by decide)

theorem append_two_ne (l : List Node) (a b : Node) : l ++ [a, b] ≠ l := by
  simp

theorem placedInBody_append (st : DocState) (t : Node) :
    placedInBody st { st with body := st.body ++ [nlNode, t] } :=
  ⟨⟨t, rfl⟩, rfl⟩

theorem placedInHead_append (st : DocState) (t : Node) :
    placedInHead st { st with head := st.head ++ [nlNode, t] } :=
  ⟨⟨t, rfl⟩, rfl⟩

theorem not_placedInHead_of_body_append (st : DocState) (t : Node) :
    ¬ placedInHead st { st with body := st.body ++ [nlNode, t] } := by
  rintro ⟨-, h⟩
  exact append_two_ne st.body nlNode t h

theorem not_placedInBody_of_head_append (st : DocState) (t : Node) :
    ¬ placedInBody st { st with head := st.head ++ [nlNode, t] } := by
  rintro ⟨-, h⟩
  exact append_two_ne st.head nlNode t h

theorem injectCSSandJS_css_placement (m n : Bool) (st : DocState) (f : String)
    (i : InjectOpt) (co : Option String) :
    (placedInBody st (injectCSSandJS m n st f "css" i co) ↔ i = InjectOpt.str "body") ∧
    (placedInHead st (injectCSSandJS m n st f "css" i co) ↔ i ≠ InjectOpt.str "body") := by
  by_cases hi : i = InjectOpt.str "body"
  · rw [injectCSSandJS, if_pos rfl, if_pos hi]
    constructor
    · exact ⟨fun _ => hi, fun _ => placedInBody_append st _⟩
    · constructor
      · intro h
        exact absurd h (not_placedInHead_of_body_append st _)
      · intro h
        exact absurd hi h
  · rw [injectCSSandJS, if_pos rfl, if_neg hi]
    constructor
    · constructor
      · intro h
        exact absurd h (not_placedInBody_of_head_append st _)
      · intro h
        exact absurd h hi
    · exact ⟨fun _ => hi, fun _ => placedInHead_append st _⟩

theorem injectCSSandJS_script_placement (m n : Bool) (st : DocState) (f ty : String)
    (i : InjectOpt) (co : Option String) (hty : ty ≠ "css") :
    (placedInHead st (injectCSSandJS m n st f ty i co) ↔ i = InjectOpt.str "head") ∧
    (placedInBody st (injectCSSandJS m n st f ty i co) ↔ i ≠ InjectOpt.str "head") := by
  by_cases hi : i = InjectOpt.str "head"
  · rw [injectCSSandJS, if_neg hty, if_pos hi]
    constructor
    · exact ⟨fun _ => hi, fun _ => placedInHead_append st _⟩
    · constructor
      · intro h
        exact absurd h (not_placedInBody_of_head_append st _)
      · intro h
        exact absurd hi h
  · rw [injectCSSandJS, if_neg hty, if_neg hi]
    constructor
    · constructor
      · intro h
        exact absurd h (not_placedInHead_of_body_append st _)
      · intro h
        exact absurd h hi
    · exact ⟨fun _ => hi, fun _ => placedInBody_append st _⟩

/-- Claim C1: a generated entry file with the css extension is appended
to body exactly when the inject option is the body token and to head
otherwise; a generated entry file with any other extension is appended
to head exactly when the inject option is the head token and to body
otherwise. -/
theorem C1_tag_placement (m n : Bool) (i : InjectOpt)
    (entries dyn : List (String × String)) (pre : PreloadVal) (pfx : String)
    (st : DocState) (fn : String)
    (he : (lookupA entries (parsedName fn)).isSome = true) :
    ∃ st2, processFile m n i entries dyn pre pfx st fn = Except.ok st2 ∧
      (slice1 (parsedExt fn) = "css" →
        (placedInBody st st2 ↔ i = InjectOpt.str "body") ∧
        (placedInHead st st2 ↔ i ≠ InjectOpt.str "body")) ∧
      (slice1 (parsedExt fn) ≠ "css" →
        (placedInHead st st2 ↔ i = InjectOpt.str "head") ∧
        (placedInBody st st2 ↔ i ≠ InjectOpt.str "head")) := by
  refine ⟨injectCSSandJS m n st (pfx ++ fn) (slice1 (parsedExt fn)) i none, ?_, ?_, ?_⟩
  · simp [processFile, he]
  · intro hcss
    rw [hcss]
    exact injectCSSandJS_css_placement m n st (pfx ++ fn) i none
  · intro hty
    exact injectCSSandJS_script_placement m n st (pfx ++ fn) _ i none hty

/-- Witness for C1: a stylesheet entry under an explicit body target goes
to body. -/
theorem C1_tag_placement_witness :
    ∃ st2, processFile false false (InjectOpt.str "body") [("main", "main")] []
        (PreloadVal.setv []) "" ⟨[], []⟩ "main.css" = Except.ok st2 ∧
      placedInBody ⟨[], []⟩ st2 := by
  obtain ⟨st2, hok, hcss, -⟩ := C1_tag_placement false false (InjectOpt.str "body")
    [("main", "main")] [] (PreloadVal.setv []) "" ⟨[], []⟩ "main.css" (by decide)
  exact ⟨st2, hok, ((hcss (by decide)).1).mpr rfl⟩

/-- Claim C9: the module attribute closure is shared, so an external of
script type carries the module type attribute whenever the modules option
is on, and the bare nomodule attribute whenever the nomodule option is on
alone, exactly like generated scripts. -/
theorem C9_external_script_module_attrs (m n : Bool) (p : String) (st : DocState)
    (e : External) (hp : e.pos = some p)
    (hty : orTruthy e.type (slice1 (parsedExt e.file)) ≠ "css") :
    (m = true → (extStep m n p st e).body = st.body ++
        [nlNode, Node.element "script"
          ([("type", "module")] ++ corsAttrs e.crossorigin ++ [("src", e.file)]) []] ∧
      (extStep m n p st e).head = st.head) ∧
    (m = false → n = true → (extStep m n p st e).body = st.body ++
        [nlNode, Node.element "script"
          ([("nomodule", "")] ++ corsAttrs e.crossorigin ++ [("src", e.file)]) []] ∧
      (extStep m n p st e).head = st.head) := by
  rw [extStep, if_pos hp, injectCSSandJS, if_neg hty,
    if_neg (fun h => by cases h)]
  constructor
  · rintro rfl
    exact ⟨by rw [moduleAttrs, if_pos rfl], rfl⟩
  · rintro rfl rfl
    exact ⟨by rw [moduleAttrs, if_neg (fun h => by cases h), if_pos rfl], rfl⟩

/-- Witness for C9: a script external with the modules option on gets the
module type attribute, with the nomodule option on gets the bare
nomodule attribute. -/
theorem C9_external_script_module_attrs_witness :
    ((extStep true false "before" ⟨[], []⟩ ⟨some "before", "x.js", none, none, none⟩).body =
      [] ++ [nlNode, Node.element "script"
        ([("type", "module")] ++ corsAttrs none ++ [("src", "x.js")]) []]) ∧
    ((extStep false true "before" ⟨[], []⟩ ⟨some "before", "x.js", none, none, none⟩).body =
      [] ++ [nlNode, Node.element "script"
        ([("nomodule", "")] ++ corsAttrs none ++ [("src", "x.js")]) []]) :=
  ⟨((C9_external_script_module_attrs true false "before" ⟨[], []⟩
      ⟨some "before", "x.js", none, none, none⟩ rfl (by decide)).1 rfl).1,
   ((C9_external_script_module_attrs false true "before" ⟨[], []⟩
      ⟨some "before", "x.js", none, none, none⟩ rfl (by decide)).2 rfl rfl).1⟩

theorem mem_corsAttrs (co : Option String) (c : String) :
    ("crossorigin", c) ∈ corsAttrs co ↔ (co = some c ∧ c ≠ "") := by
  cases co with
  | none => simp [corsAttrs]
  | some v =>
    by_cases hv : v = ""
    · subst hv
      constructor
      · intro h
        simp [corsAttrs] at h
      · rintro ⟨heq, hne⟩
        injection heq with heq
        exact absurd heq.symm hne
    · simp only [corsAttrs, if_neg hv, List.mem_singleton, Prod.mk.injEq, true_and,
        Option.some.injEq]
      constructor
      · rintro rfl
        exact ⟨rfl, hv⟩
      · rintro ⟨rfl, -⟩
        rfl

theorem injectCSSandJS_appends (m n : Bool) (st : DocState) (f ty : String)
    (i : InjectOpt) (co : Option String) :
    ∃ dh db, (injectCSSandJS m n st f ty i co).head = st.head ++ dh ∧
      (injectCSSandJS m n st f ty i co).body = st.body ++ db := by
  rw [injectCSSandJS]
  by_cases h1 : ty = "css"
  · rw [if_pos h1]
    by_cases h2 : i = InjectOpt.str "body"
    · rw [if_pos h2]
      exact ⟨[], _, (List.append_nil _).symm, rfl⟩
    · rw [if_neg h2]
      exact ⟨_, [], rfl, (List.append_nil _).symm⟩
  · rw [if_neg h1]
    by_cases h2 : i = InjectOpt.str "head"
    · rw [if_pos h2]
      exact ⟨_, [], rfl, (List.append_nil _).symm⟩
    · rw [if_neg h2]
      exact ⟨[], _, (List.append_nil _).symm, rfl⟩

theorem extStep_appends (m n : Bool) (p : String) (st : DocState) (e : External) :
    ∃ dh db, (extStep m n p st e).head = st.head ++ dh ∧
      (extStep m n p st e).body = st.body ++ db := by
  rw [extStep]
  by_cases hp : e.pos = some p
  · rw [if_pos hp]
    exact injectCSSandJS_appends m n st _ _ _ _
  · rw [if_neg hp]
    exact ⟨[], [], (List.append_nil _).symm, (List.append_nil _).symm⟩

theorem foldl_extStep_appends (m n : Bool) (p : String) (l : List External) :
    ∀ st : DocState, ∃ dh db, (l.foldl (extStep m n p) st).head = st.head ++ dh ∧
      (l.foldl (extStep m n p) st).body = st.body ++ db := by
  induction l with
  | nil =>
    intro st
    exact ⟨[], [], (List.append_nil _).symm, (List.append_nil _).symm⟩
  | cons e rest ih =>
    intro st
    obtain ⟨d1h, d1b, h1h, h1b⟩ := extStep_appends m n p st e
    obtain ⟨d2h, d2b, h2h, h2b⟩ := ih (extStep m n p st e)
    refine ⟨d1h ++ d2h, d1b ++ d2b, ?_, ?_⟩
    · rw [List.foldl_cons, h2h, h1h, List.append_assoc]
    · rw [List.foldl_cons, h2b, h1b, List.append_assoc]

theorem processExternals_appends (m n : Bool) (ex : Option (List External))
    (p : String) (st : DocState) :
    ∃ dh db, (processExternals m n ex p st).head = st.head ++ dh ∧
      (processExternals m n ex p st).body = st.body ++ db := by
  cases ex with
  | none => exact ⟨[], [], (List.append_nil _).symm, (List.append_nil _).symm⟩
  | some l => exact foldl_extStep_appends m n p l st

theorem processFile_appends (m n : Bool) (i : InjectOpt)
    (entries dyn : List (String × String)) (pre : PreloadVal) (pfx : String)
    (st : DocState) (fn : String) (st2 : DocState)
    (h : processFile m n i entries dyn pre pfx st fn = Except.ok st2) :
    ∃ dh db, st2.head = st.head ++ dh ∧ st2.body = st.body ++ db := by
  rw [processFile] at h
  split at h
  · injection h with h
    subst h
    exact injectCSSandJS_appends m n st _ _ _ _
  · split at h
    · split at h
      · cases h
      · split at h
        · split at h
          · injection h with h
            subst h
            exact ⟨_, [], rfl, (List.append_nil _).symm⟩
          · injection h with h
            subst h
            exact ⟨[], [], (List.append_nil _).symm, (List.append_nil _).symm⟩
        · injection h with h
          subst h
          exact ⟨[], [], (List.append_nil _).symm, (List.append_nil _).symm⟩
    · injection h with h
      subst h
      exact ⟨[], [], (List.append_nil _).symm, (List.append_nil _).symm⟩

theorem foldlM_processFile_appends (m n : Bool) (i : InjectOpt)
    (entries dyn : List (String × String)) (pre : PreloadVal) (pfx : String)
    (files : List OutputFile) :
    ∀ st st2 : DocState,
      files.foldlM (fun s f => processFile m n i entries dyn pre pfx s f.fileName) st
        = Except.ok st2 →
      ∃ dh db, st2.head = st.head ++ dh ∧ st2.body = st.body ++ db := by
  induction files with
  | nil =>
    intro st st2 h
    injection h with h
    subst h
    exact ⟨[], [], (List.append_nil _).symm, (List.append_nil _).symm⟩
  | cons f rest ih =>
    intro st st2 h
    rw [List.foldlM_cons] at h
    rcases hf : processFile m n i entries dyn pre pfx st f.fileName with msg | s1
    · rw [hf] at h
      cases h
    · rw [hf] at h
      obtain ⟨d1h, d1b, h1h, h1b⟩ := processFile_appends m n i entries dyn pre pfx st _ s1 hf
      obtain ⟨d2h, d2b, h2h, h2b⟩ := ih s1 st2 h
      refine ⟨d1h ++ d2h, d1b ++ d2b, ?_, ?_⟩
      · rw [h2h, h1h, List.append_assoc]
      · rw [h2b, h1b, List.append_assoc]

theorem injectGenerated_appends (m n : Bool) (i : InjectOpt) (pre : PreloadVal)
    (op : Option String) (files : List OutputFile) (st st2 : DocState)
    (h : injectGenerated m n i pre op files st = Except.ok st2) :
    ∃ dh db, st2.head = st.head ++ dh ∧ st2.body = st.body ++ db := by
  rw [injectGenerated] at h
  by_cases hi : i = InjectOpt.bool false
  · rw [if_pos hi] at h
    injection h with h
    subst h
    exact ⟨[], [], (List.append_nil _).symm, (List.append_nil _).symm⟩
  · rw [if_neg hi] at h
    exact foldlM_processFile_appends m n i _ _ _ _ files st st2 h

theorem not_mem_moduleAttrs (m n : Bool) (c : String) :
    ("crossorigin", c) ∉ moduleAttrs m n := by
  cases m <;> cases n <;> simp [moduleAttrs]

theorem mem_linkAttrs (co : Option String) (f c : String) :
    ("crossorigin", c) ∈ ([("rel", "stylesheet")] ++ corsAttrs co ++ [("href", f)]) ↔
      (co = some c ∧ c ≠ "") := by
  simp only [List.mem_append, List.mem_singleton, mem_corsAttrs]
  constructor
  · rintro ((h | h) | h)
    · exact absurd h (by simp)
    · exact h
    · exact absurd h (by simp)
  · intro h
    exact Or.inl (Or.inr h)

theorem mem_scriptAttrs (m n : Bool) (co : Option String) (f c : String) :
    ("crossorigin", c) ∈ (moduleAttrs m n ++ corsAttrs co ++ [("src", f)]) ↔
      (co = some c ∧ c ≠ "") := by
  simp only [List.mem_append, List.mem_singleton, mem_corsAttrs]
  constructor
  · rintro ((h | h) | h)
    · exact absurd h (not_mem_moduleAttrs m n c)
    · exact h
    · exact absurd h (by simp)
  · intro h
    exact Or.inl (Or.inr h)

/-- Claim C3 (corrected): an external whose position matches is emitted
at the type-appropriate default location, head for stylesheets and body
for scripts; the configured insert point is never consulted, the
configured cross-origin attribute is carried exactly when truthy, and
after-position externals run only after the whole generated phase, so
their tags land after all generated tags. -/
theorem C3_externals_default_placement :
    (∀ (m n : Bool) (p : String) (st : DocState) (e : External) (ip : Option String),
      extStep m n p st { e with insertPoint := ip } = extStep m n p st e) ∧
    (∀ (m n : Bool) (p : String) (st : DocState) (e : External), e.pos = some p →
      (orTruthy e.type (slice1 (parsedExt e.file)) = "css" →
        placedInHead st (extStep m n p st e)) ∧
      (orTruthy e.type (slice1 (parsedExt e.file)) ≠ "css" →
        placedInBody st (extStep m n p st e)) ∧
      (∃ tg attrs,
        (extStep m n p st e = { st with head := st.head ++ [nlNode, Node.element tg attrs []] } ∨
          extStep m n p st e = { st with body := st.body ++ [nlNode, Node.element tg attrs []] }) ∧
        (∀ c, ("crossorigin", c) ∈ attrs ↔ (e.crossorigin = some c ∧ c ≠ "")))) ∧
    (∀ (m n : Bool) (p : String) (st : DocState) (e : External), e.pos ≠ some p →
      extStep m n p st e = st) ∧
    (∀ (m n : Bool) (ex : Option (List External)) (i : InjectOpt) (pre : PreloadVal)
      (op : Option String) (files : List OutputFile) (st st2 : DocState),
      tagPhase m n ex i pre op files st = Except.ok st2 →
      ∃ stG, injectGenerated m n i pre op files (processExternals m n ex "before" st)
          = Except.ok stG ∧
        st2 = processExternals m n ex "after" stG ∧
        (∃ dh db, stG.head = (processExternals m n ex "before" st).head ++ dh ∧
          stG.body = (processExternals m n ex "before" st).body ++ db) ∧
        (∃ dh db, st2.head = stG.head ++ dh ∧ st2.body = stG.body ++ db)) := by
  refine ⟨?_, ?_, ?_, ?_⟩
  · intro m n p st e ip
    cases e
    rfl
  · intro m n p st e hp
    refine ⟨?_, ?_, ?_⟩
    · intro hcss
      rw [extStep, if_pos hp, injectCSSandJS, if_pos hcss,
        if_neg (fun h => by cases h)]
      exact placedInHead_append st _
    · intro hty
      rw [extStep, if_pos hp, injectCSSandJS, if_neg hty,
        if_neg (fun h => by cases h)]
      exact placedInBody_append st _
    · rw [extStep, if_pos hp, injectCSSandJS]
      by_cases hcss : orTruthy e.type (slice1 (parsedExt e.file)) = "css"
      · rw [if_pos hcss, if_neg (fun h => by cases h)]
        exact ⟨"link", _, Or.inl rfl, fun c => mem_linkAttrs e.crossorigin e.file c⟩
      · rw [if_neg hcss, if_neg (fun h => by cases h)]
        exact ⟨"script", _, Or.inr rfl, fun c => mem_scriptAttrs m n e.crossorigin e.file c⟩
  · intro m n p st e hp
    rw [extStep, if_neg hp]
  · intro m n ex i pre op files st st2 h
    simp only [tagPhase] at h
    split at h
    · rename_i stG hG
      injection h with h
      refine ⟨stG, hG, h.symm, ?_, ?_⟩
      · exact injectGenerated_appends m n i pre op files _ stG hG
      · subst h
        exact processExternals_appends m n ex "after" stG
    · cases h

/-- Witness for C3: a script external at the before position with no
insert point lands in body. -/
theorem C3_externals_default_placement_witness :
    placedInBody ⟨[], []⟩ (extStep false false "before" ⟨[], []⟩
      ⟨some "before", "x.js", none, none, none⟩) :=
  ((C3_externals_default_placement.2.1 false false "before" ⟨[], []⟩
    ⟨some "before", "x.js", none, none, none⟩ rfl).2.1) (by decide)

/-- Counterexample to C3 as stated: an external script configured with a
head insert point is still emitted into body, its insert point being
ignored. -/
theorem C3_counterexample :
    (extStep false false "before" ⟨[], []⟩
      ⟨some "before", "x.js", none, none, some "head"⟩).head = [] ∧
    (extStep false false "before" ⟨[], []⟩
      ⟨some "before", "x.js", none, none, some "head"⟩).body =
      [nlNode, Node.element "script" [("src", "x.js")] []] ∧
    External.insertPoint ⟨some "before", "x.js", none, none, some "head"⟩ = some "head" :=
  ⟨by decide, by decide, rfl⟩

theorem processFile_dyn_eq (m n : Bool) (i : InjectOpt)
    (entries dyn : List (String × String)) (l : List String) (pfx : String)
    (st : DocState) (fn : String) (logical : String)
    (hne : lookupA entries (parsedName fn) = none)
    (hd : lookupA dyn (parsedName fn) = some logical) :
    processFile m n i entries dyn (PreloadVal.setv l) pfx st fn =
      (if l.contains logical = true then
        match extensionToType (slice1 (parsedExt fn)) with
        | some linkType =>
          Except.ok { st with head := st.head ++
            [nlNode, Node.element "link"
              [("rel", "preload"), ("href", pfx ++ fn), ("as", linkType)] []] }
        | none => Except.ok st
      else Except.ok st) := by
  rw [processFile]
  rw [if_neg (by rw [hne]; intro h; cases h)]
  rw [hd]
  rfl

/-- Claim C2: a file whose stem is a dynamic entry key and not an entry
key gets a preload link in head with the as attribute style for css and
script for js exactly when its logical name is in the normalized preload
set; an unrecognized extension is skipped silently and a logical name
outside the set never produces a link. -/
theorem C2_preload_emission (m n : Bool) (i : InjectOpt)
    (entries dyn : List (String × String)) (l : List String) (pfx : String)
    (st : DocState) (fn : String) (logical : String)
    (hne : lookupA entries (parsedName fn) = none)
    (hd : lookupA dyn (parsedName fn) = some logical) :
    (logical ∈ l →
      (slice1 (parsedExt fn) = "css" →
        processFile m n i entries dyn (PreloadVal.setv l) pfx st fn =
          Except.ok { st with head := st.head ++
            [nlNode, Node.element "link"
              [("rel", "preload"), ("href", pfx ++ fn), ("as", "style")] []] }) ∧
      (slice1 (parsedExt fn) = "js" →
        processFile m n i entries dyn (PreloadVal.setv l) pfx st fn =
          Except.ok { st with head := st.head ++
            [nlNode, Node.element "link"
              [("rel", "preload"), ("href", pfx ++ fn), ("as", "script")] []] }) ∧
      (slice1 (parsedExt fn) ≠ "css" → slice1 (parsedExt fn) ≠ "js" →
        processFile m n i entries dyn (PreloadVal.setv l) pfx st fn = Except.ok st)) ∧
    (logical ∉ l →
      processFile m n i entries dyn (PreloadVal.setv l) pfx st fn = Except.ok st) := by
  rw [processFile_dyn_eq m n i entries dyn l pfx st fn logical hne hd]
  constructor
  · intro hin
    rw [if_pos (List.elem_iff.mpr hin)]
    refine ⟨?_, ?_, ?_⟩
    · intro hcss
      rw [hcss]
      rfl
    · intro hjs
      rw [hjs]
      rfl
    · intro hcss hjs
      have ht : extensionToType (slice1 (parsedExt fn)) = none := by
        rw [extensionToType, if_neg hcss, if_neg hjs]
      rw [ht]
  · intro hout
    rw [if_neg (fun hc => hout (List.elem_iff.mp hc))]

/-- Witness for C2: a dynamic entry chunk whose logical name is in the
preload set produces a script preload link in head. -/
theorem C2_preload_emission_witness :
    processFile false false InjectOpt.undef [] [("chunkA", "chunkA")]
        (PreloadVal.setv ["chunkA"]) "" ⟨[], []⟩ "chunkA.js" =
      Except.ok ⟨([] : List Node) ++
        [nlNode, Node.element "link"
          [("rel", "preload"), ("href", "" ++ "chunkA.js"), ("as", "script")] []],
        ([] : List Node)⟩ :=
  ((C2_preload_emission false false InjectOpt.undef [] [("chunkA", "chunkA")]
    ["chunkA"] "" ⟨[], []⟩ "chunkA.js" "chunkA" (by decide) (by decide)).1
      (by decide)).2.1 (by decide)

theorem lookupA_cons (p : String × String) (l : List (String × String)) (k : String) :
    lookupA (p :: l) k = if p.1 = k then some p.2 else lookupA l k := by
  by_cases h : p.1 = k
  · simp [lookupA, List.find?_cons, h]
  · simp [lookupA, List.find?_cons, h]


theorem lookupA_map_overwrite (l : List (String × String)) (k v s : String)
    (hks : k ≠ s) :
    lookupA (l.map (fun p => if p.1 = k then (k, v) else p)) s = lookupA l s := by
  induction l with
  | nil => rfl
  | cons p rest ih =>
    rw [List.map_cons]
    by_cases hp : p.1 = k
    · rw [if_pos hp, lookupA_cons, lookupA_cons]
      rw [if_neg (fun hh : k = s => hks hh), if_neg (fun hh : p.1 = s => hks (hp ▸ hh))]
      exact ih
    · rw [if_neg hp, lookupA_cons, lookupA_cons]
      by_cases hps : p.1 = s
      · rw [if_pos hps, if_pos hps]
      · rw [if_neg hps, if_neg hps]
        exact ih

theorem lookupA_map_overwrite_self (l : List (String × String)) (k v : String)
    (h : l.any (fun p => p.1 = k) = true) :
    lookupA (l.map (fun p => if p.1 = k then (k, v) else p)) k = some v := by
  induction l with
  | nil => cases h
  | cons p rest ih =>
    rw [List.map_cons]
    by_cases hp : p.1 = k
    · rw [if_pos hp, lookupA_cons, if_pos rfl]
    · rw [if_neg hp, lookupA_cons, if_neg hp]
      rw [List.any_cons] at h
      rcases Bool.or_eq_true_iff.mp h with h1 | h2
      · exact absurd (of_decide_eq_true h1) hp
      · exact ih h2

theorem lookupA_none_of_not_any (l : List (String × String)) (k : String)
    (h : ¬ l.any (fun p => p.1 = k) = true) : lookupA l k = none := by
  induction l with
  | nil => rfl
  | cons p rest ih =>
    rw [List.any_cons] at h
    have hp : ¬ p.1 = k := fun hh =>
      h (Bool.or_eq_true_iff.mpr (Or.inl (decide_eq_true hh)))
    rw [lookupA_cons, if_neg hp]
    exact ih (fun hh => h (Bool.or_eq_true_iff.mpr (Or.inr hh)))

theorem lookupA_append_single (l : List (String × String)) (k v s : String) :
    lookupA (l ++ [(k, v)]) s =
      match lookupA l s with
      | some u => some u
      | none => if k = s then some v else none := by
  induction l with
  | nil =>
    rw [List.nil_append, lookupA_cons]
    rw [show lookupA ([] : List (String × String)) s = none from rfl]
  | cons p rest ih =>
    rw [List.cons_append, lookupA_cons, lookupA_cons]
    by_cases hps : p.1 = s
    · rw [if_pos hps, if_pos hps]
    · rw [if_neg hps, if_neg hps]
      exact ih

theorem lookupA_insertAssoc_self (l : List (String × String)) (k v : String) :
    lookupA (insertAssoc l k v) k = some v := by
  rw [insertAssoc]
  by_cases h : l.any (fun p => p.1 = k) = true
  · rw [if_pos h]
    exact lookupA_map_overwrite_self l k v h
  · rw [if_neg h, lookupA_append_single, lookupA_none_of_not_any l k h, if_pos rfl]

theorem lookupA_insertAssoc_ne (l : List (String × String)) (k v s : String)
    (hks : k ≠ s) : lookupA (insertAssoc l k v) s = lookupA l s := by
  rw [insertAssoc]
  by_cases h : l.any (fun p => p.1 = k) = true
  · rw [if_pos h]
    exact lookupA_map_overwrite l k v s hks
  · rw [if_neg h, lookupA_append_single]
    cases hl : lookupA l s with
    | some u => rfl
    | none => rw [if_neg hks]

theorem lookupA_insertAssoc_isSome (l : List (String × String)) (k v s : String)
    (h : (lookupA l s).isSome = true) :
    (lookupA (insertAssoc l k v) s).isSome = true := by
  by_cases hk : k = s
  · subst hk
    rw [lookupA_insertAssoc_self]
    rfl
  · rw [lookupA_insertAssoc_ne l k v s hk]
    exact h

theorem bundleReducer_entries_isSome (acc : NameMaps) (f : OutputFile) (s : String)
    (h : (lookupA acc.entries s).isSome = true) :
    (lookupA (bundleReducer acc f).entries s).isSome = true := by
  rw [bundleReducer]
  by_cases h1 : f.type = "chunk"
  · rw [if_pos h1]
    by_cases h2 : f.isEntry = true
    · rw [if_pos h2]
      exact lookupA_insertAssoc_isSome acc.entries _ _ s h
    · rw [if_neg h2]
      by_cases h3 : f.isDynamicEntry = true
      · rw [if_pos h3]
        exact h
      · rw [if_neg h3]
        exact h
  · rw [if_neg h1]
    exact h

theorem bundleReducer_dyn_isSome (acc : NameMaps) (f : OutputFile) (s : String)
    (h : (lookupA acc.dynamicEntries s).isSome = true) :
    (lookupA (bundleReducer acc f).dynamicEntries s).isSome = true := by
  rw [bundleReducer]
  by_cases h1 : f.type = "chunk"
  · rw [if_pos h1]
    by_cases h2 : f.isEntry = true
    · rw [if_pos h2]
      exact h
    · rw [if_neg h2]
      by_cases h3 : f.isDynamicEntry = true
      · rw [if_pos h3]
        exact lookupA_insertAssoc_isSome acc.dynamicEntries _ _ s h
      · rw [if_neg h3]
        exact h
  · rw [if_neg h1]
    exact h

theorem foldl_bundleReducer_entries_isSome (files : List OutputFile) :
    ∀ acc : NameMaps, ∀ s : String,
      ((∃ c ∈ files, c.type = "chunk" ∧ c.isEntry = true ∧ parsedName c.fileName = s) ∨
        (lookupA acc.entries s).isSome = true) →
      (lookupA (files.foldl bundleReducer acc).entries s).isSome = true := by
  induction files with
  | nil =>
    intro acc s h
    rcases h with ⟨c, hc, -⟩ | h
    · cases hc
    · exact h
  | cons f rest ih =>
    intro acc s h
    rw [List.foldl_cons]
    rcases h with ⟨c, hc, hchunk, hentry, hstem⟩ | h
    · rcases List.mem_cons.mp hc with rfl | hmem
      · refine ih (bundleReducer acc c) s (Or.inr ?_)
        rw [bundleReducer, if_pos hchunk, if_pos hentry]
        rw [show ({ acc with entries := insertAssoc acc.entries (parsedName c.fileName) c.name } : NameMaps).entries = insertAssoc acc.entries (parsedName c.fileName) c.name from rfl]
        rw [hstem, lookupA_insertAssoc_self]
        rfl
      · exact ih (bundleReducer acc f) s (Or.inl ⟨c, hmem, hchunk, hentry, hstem⟩)
    · exact ih (bundleReducer acc f) s (Or.inr (bundleReducer_entries_isSome acc f s h))

theorem foldl_bundleReducer_dyn_isSome (files : List OutputFile) :
    ∀ acc : NameMaps, ∀ s : String,
      ((∃ c ∈ files, c.type = "chunk" ∧ c.isEntry = false ∧ c.isDynamicEntry = true ∧
          parsedName c.fileName = s) ∨
        (lookupA acc.dynamicEntries s).isSome = true) →
      (lookupA (files.foldl bundleReducer acc).dynamicEntries s).isSome = true := by
  induction files with
  | nil =>
    intro acc s h
    rcases h with ⟨c, hc, -⟩ | h
    · cases hc
    · exact h
  | cons f rest ih =>
    intro acc s h
    rw [List.foldl_cons]
    rcases h with ⟨c, hc, hchunk, hentry, hdyn, hstem⟩ | h
    · rcases List.mem_cons.mp hc with rfl | hmem
      · refine ih (bundleReducer acc c) s (Or.inr ?_)
        rw [bundleReducer, if_pos hchunk, if_neg (by rw [hentry]; exact fun hh => by cases hh),
          if_pos hdyn]
        rw [show ({ acc with dynamicEntries := insertAssoc acc.dynamicEntries (parsedName c.fileName) c.name } : NameMaps).dynamicEntries = insertAssoc acc.dynamicEntries (parsedName c.fileName) c.name from rfl]
        rw [hstem, lookupA_insertAssoc_self]
        rfl
      · exact ih (bundleReducer acc f) s (Or.inl ⟨c, hmem, hchunk, hentry, hdyn, hstem⟩)
    · exact ih (bundleReducer acc f) s (Or.inr (bundleReducer_dyn_isSome acc f s h))

theorem foldl_bundleReducer_entries_none (files : List OutputFile) :
    ∀ acc : NameMaps, ∀ s : String,
      (∀ c ∈ files, c.type = "chunk" → c.isEntry = true → parsedName c.fileName ≠ s) →
      lookupA (files.foldl bundleReducer acc).entries s = lookupA acc.entries s := by
  induction files with
  | nil =>
    intro acc s _
    rfl
  | cons f rest ih =>
    intro acc s h
    rw [List.foldl_cons]
    rw [ih (bundleReducer acc f) s (fun c hc => h c (List.mem_cons_of_mem _ hc))]
    rw [bundleReducer]
    by_cases h1 : f.type = "chunk"
    · rw [if_pos h1]
      by_cases h2 : f.isEntry = true
      · rw [if_pos h2]
        exact lookupA_insertAssoc_ne acc.entries _ _ s
          (h f (List.mem_cons_self _ _) h1 h2)
      · rw [if_neg h2]
        by_cases h3 : f.isDynamicEntry = true
        · rw [if_pos h3]
        · rw [if_neg h3]
    · rw [if_neg h1]

theorem tagURL_entry_tag (m n : Bool) (u ty : String) :
    (ty = "css" →
      tagURL (Node.element "link"
        ([("rel", "stylesheet")] ++ corsAttrs none ++ [("href", u)]) []) = some u) ∧
    tagURL (Node.element "script"
      (moduleAttrs m n ++ corsAttrs none ++ [("src", u)]) []) = some u := by
  constructor
  · intro _
    simp [tagURL, corsAttrs, lookupA, List.find?]
  · cases m <;> cases n <;> simp [tagURL, moduleAttrs, corsAttrs, lookupA, List.find?]

theorem injectCSSandJS_none_tagURL (m n : Bool) (st : DocState) (u ty : String)
    (i : InjectOpt) :
    ∃ tag, (((injectCSSandJS m n st u ty i none).head = st.head ++ [nlNode, tag] ∧
        (injectCSSandJS m n st u ty i none).body = st.body) ∨
      ((injectCSSandJS m n st u ty i none).body = st.body ++ [nlNode, tag] ∧
        (injectCSSandJS m n st u ty i none).head = st.head)) ∧
      tagURL tag = some u := by
  rw [injectCSSandJS]
  by_cases h1 : ty = "css"
  · rw [if_pos h1]
    by_cases h2 : i = InjectOpt.str "body"
    · rw [if_pos h2]
      exact ⟨_, Or.inr ⟨rfl, rfl⟩, (tagURL_entry_tag m n u ty).1 h1⟩
    · rw [if_neg h2]
      exact ⟨_, Or.inl ⟨rfl, rfl⟩, (tagURL_entry_tag m n u ty).1 h1⟩
  · rw [if_neg h1]
    by_cases h2 : i = InjectOpt.str "head"
    · rw [if_pos h2]
      exact ⟨_, Or.inl ⟨rfl, rfl⟩, (tagURL_entry_tag m n u ty).2⟩
    · rw [if_neg h2]
      exact ⟨_, Or.inr ⟨rfl, rfl⟩, (tagURL_entry_tag m n u ty).2⟩

/-- Claim C4: whenever some entry code chunk in the bundle shares a stem
with a file, that stem is a key of the entries map, so the file is
injected as a tag regardless of its own kind or flags, and the injected
tag URL is the normalized path followed by the fileName verbatim. -/
theorem C4_conamed_injection (files : List OutputFile) (c f : OutputFile)
    (m n : Bool) (i : InjectOpt) (pre : PreloadVal) (op : Option String) (st : DocState)
    (hc : c ∈ files) (hchunk : c.type = "chunk") (hentry : c.isEntry = true)
    (hstem : parsedName c.fileName = parsedName f.fileName) :
    (lookupA (files.foldl bundleReducer ⟨[], []⟩).entries
      (parsedName f.fileName)).isSome = true ∧
    ∃ st2 tag,
      processFile m n i (files.foldl bundleReducer ⟨[], []⟩).entries
          (files.foldl bundleReducer ⟨[], []⟩).dynamicEntries pre
          ( normalizePrefix op) st f.fileName = Except.ok st2 ∧
      ((st2.head = st.head ++ [nlNode, tag] ∧ st2.body = st.body) ∨
        (st2.body = st.body ++ [nlNode, tag] ∧ st2.head = st.head)) ∧
      tagURL tag = some ( normalizePrefix op ++ f.fileName) := by
  have hmem : (lookupA (files.foldl bundleReducer ⟨[], []⟩).entries
      (parsedName f.fileName)).isSome = true :=
    foldl_bundleReducer_entries_isSome files ⟨[], []⟩ _
      (Or.inl ⟨c, hc, hchunk, hentry, hstem⟩)
  refine ⟨hmem, ?_⟩
  obtain ⟨tag, hplace, hurl⟩ := injectCSSandJS_none_tagURL m n st
    ( normalizePrefix op ++ f.fileName) (slice1 (parsedExt f.fileName)) i
  exact ⟨_, tag, by simp [processFile, hmem], hplace, hurl⟩

/-- Witness for C4: a css asset co-named with an entry js chunk is
injected with the bare fileName as its URL. -/
theorem C4_conamed_injection_witness :
    (lookupA (([(⟨"app.js", "chunk", "app", true, false⟩ : OutputFile)].foldl bundleReducer
      ⟨[], []⟩).entries) (parsedName "app.css")).isSome = true ∧
    ∃ st2 tag,
      processFile false false InjectOpt.undef
          (([(⟨"app.js", "chunk", "app", true, false⟩ : OutputFile)].foldl bundleReducer
            ⟨[], []⟩).entries)
          (([(⟨"app.js", "chunk", "app", true, false⟩ : OutputFile)].foldl bundleReducer
            ⟨[], []⟩).dynamicEntries)
          (PreloadVal.setv []) ( normalizePrefix none) ⟨[], []⟩ "app.css" = Except.ok st2 ∧
      ((st2.head = (⟨[], []⟩ : DocState).head ++ [nlNode, tag] ∧
          st2.body = (⟨[], []⟩ : DocState).body) ∨
        (st2.body = (⟨[], []⟩ : DocState).body ++ [nlNode, tag] ∧
          st2.head = (⟨[], []⟩ : DocState).head)) ∧
      tagURL tag = some ( normalizePrefix none ++ "app.css") :=
  C4_conamed_injection [⟨"app.js", "chunk", "app", true, false⟩]
    ⟨"app.js", "chunk", "app", true, false⟩ ⟨"app.css", "asset", "", false, false⟩
    false false InjectOpt.undef (PreloadVal.setv []) none ⟨[], []⟩
    (List.mem_singleton.mpr rfl) rfl rfl (by decide)

theorem processFile_boolTrue_error (m n : Bool) (i : InjectOpt)
    (entries dyn : List (String × String)) (pfx : String) (st : DocState)
    (fn logical : String)
    (h1 : lookupA entries (parsedName fn) = none)
    (h2 : lookupA dyn (parsedName fn) = some logical) :
    processFile m n i entries dyn (PreloadVal.boolv true) pfx st fn =
      Except.error "TypeError: preload.has is not a function" := by
  rw [processFile, if_neg (by rw [h1]; exact fun h => by cases h), h2]
  rfl

theorem processFile_boolTrue_ok_of_not_cond (m n : Bool) (i : InjectOpt)
    (entries dyn : List (String × String)) (pfx : String) (st : DocState)
    (fn : String)
    (h : ¬ (lookupA entries (parsedName fn) = none ∧
      (lookupA dyn (parsedName fn)).isSome = true)) :
    ∃ st1, processFile m n i entries dyn (PreloadVal.boolv true) pfx st fn =
      Except.ok st1 := by
  rcases he : lookupA entries (parsedName fn) with - | v
  · rcases hd : lookupA dyn (parsedName fn) with - | lg
    · refine ⟨st, ?_⟩
      rw [processFile, if_neg (by rw [he]; exact fun hh => by cases hh), hd]
    · exact absurd ⟨he, by rw [hd]; rfl⟩ h
  · refine ⟨injectCSSandJS m n st (pfx ++ fn) (slice1 (parsedExt fn)) i none, ?_⟩
    rw [processFile, if_pos (by rw [he]; rfl)]

theorem foldlM_boolTrue_error (m n : Bool) (i : InjectOpt)
    (entries dyn : List (String × String)) (pfx : String)
    (files : List OutputFile) :
    ∀ st : DocState,
      (∃ f ∈ files, lookupA entries (parsedName f.fileName) = none ∧
        (lookupA dyn (parsedName f.fileName)).isSome = true) →
      files.foldlM (fun s f => processFile m n i entries dyn
          (PreloadVal.boolv true) pfx s f.fileName) st =
        Except.error "TypeError: preload.has is not a function" := by
  induction files with
  | nil =>
    rintro st ⟨f, hf, -⟩
    cases hf
  | cons f rest ih =>
    rintro st ⟨g, hg, hcond⟩
    rw [List.foldlM_cons]
    by_cases hf : lookupA entries (parsedName f.fileName) = none ∧
        (lookupA dyn (parsedName f.fileName)).isSome = true
    · obtain ⟨lg, hlg⟩ := Option.isSome_iff_exists.mp hf.2
      rw [processFile_boolTrue_error m n i entries dyn pfx st f.fileName lg hf.1 hlg]
      rfl
    · obtain ⟨st1, hst1⟩ :=
        processFile_boolTrue_ok_of_not_cond m n i entries dyn pfx st f.fileName hf
      rw [hst1]
      rcases List.mem_cons.mp hg with rfl | hgrest
      · exact absurd hcond hf
      · exact ih st1 ⟨g, hgrest, hcond⟩

/-- Claim C10: preload normalization passes the boolean true through
unchanged, and the membership test during emission on a bundle holding a
dynamic entry chunk whose stem is no entry stem then raises the runtime
type error of the missing member method rather than a configuration
error or an empty set treatment. -/
theorem C10_preload_true_type_error (m n : Bool) (i : InjectOpt) (op : Option String)
    (files : List OutputFile) (st : DocState) (f : OutputFile)
    (hi : i ≠ InjectOpt.bool false)
    (hf : f ∈ files) (hchunk : f.type = "chunk") (hentry : f.isEntry = false)
    (hdyn : f.isDynamicEntry = true)
    (hnoentry : ∀ g ∈ files, g.type = "chunk" → g.isEntry = true →
      parsedName g.fileName ≠ parsedName f.fileName) :
    normalizePreload (PreloadVal.boolv true) = PreloadVal.boolv true ∧
    injectGenerated m n i (PreloadVal.boolv true) op files st =
      Except.error "TypeError: preload.has is not a function" := by
  refine ⟨rfl, ?_⟩
  rw [injectGenerated, if_neg hi]
  refine foldlM_boolTrue_error m n i _ _ _ files st ⟨f, hf, ?_, ?_⟩
  · rw [foldl_bundleReducer_entries_none files ⟨[], []⟩ _ hnoentry]
    rfl
  · exact foldl_bundleReducer_dyn_isSome files ⟨[], []⟩ _
      (Or.inl ⟨f, hf, hchunk, hentry, hdyn, rfl⟩)

/-- Witness for C10: a bundle with one dynamic entry chunk and the
preload option true raises the type error. -/
theorem C10_preload_true_type_error_witness :
    normalizePreload (PreloadVal.boolv true) = PreloadVal.boolv true ∧
    injectGenerated false false InjectOpt.undef (PreloadVal.boolv true) none
        [⟨"chunk.js", "chunk", "chunk", false, true⟩] ⟨[], []⟩ =
      Except.error "TypeError: preload.has is not a function" :=
  C10_preload_true_type_error false false InjectOpt.undef none
    [⟨"chunk.js", "chunk", "chunk", false, true⟩] ⟨[], []⟩
    ⟨"chunk.js", "chunk", "chunk", false, true⟩ (by decide)
    (List.mem_singleton.mpr rfl) rfl rfl rfl (by decide)

theorem findTag_nil (tag : String) : findTag tag [] = none := by
  simp [findTag]

theorem findTag_cons_text (tag s : String) (rest : List Node) :
    findTag tag (Node.text s :: rest) = findTag tag rest := by
  simp [findTag]

theorem findTag_cons_element_self (tag t : String) (a : List (String × String))
    (c rest : List Node) (ht : t = tag) :
    findTag tag (Node.element t a c :: rest) = some (Node.element t a c) := by
  simp [findTag, ht]

theorem findTag_cons_element_child (tag t : String) (a : List (String × String))
    (c rest : List Node) (nd : Node) (ht : ¬ t = tag) (hc : findTag tag c = some nd) :
    findTag tag (Node.element t a c :: rest) = some nd := by
  simp [findTag, ht, hc]

theorem findTag_cons_element_skip (tag t : String) (a : List (String × String))
    (c rest : List Node) (ht : ¬ t = tag) (hc : findTag tag c = none) :
    findTag tag (Node.element t a c :: rest) = findTag tag rest := by
  simp [findTag, ht, hc]

theorem findAllTag_nil (tag : String) : findAllTag tag [] = [] := by
  simp [findAllTag]

theorem findAllTag_cons_text (tag s : String) (rest : List Node) :
    findAllTag tag (Node.text s :: rest) = findAllTag tag rest := by
  simp [findAllTag]

theorem findAllTag_cons_element (tag t : String) (a : List (String × String))
    (c rest : List Node) :
    findAllTag tag (Node.element t a c :: rest) =
      (if t = tag then [Node.element t a c] else [])
        ++ findAllTag tag c ++ findAllTag tag rest := by
  simp [findAllTag]

theorem findAllTag_nil_of_findTag_none (tag : String) :
    (l : List Node) → findTag tag l = none → findAllTag tag l = []
  | [], _ => findAllTag_nil tag
  | Node.text s :: rest, h => by
    rw [findAllTag_cons_text]
    rw [findTag_cons_text] at h
    exact findAllTag_nil_of_findTag_none tag rest h
  | Node.element t a c :: rest, h => by
    by_cases ht : t = tag
    · rw [findTag_cons_element_self tag t a c rest ht] at h
      cases h
    · rcases hc : findTag tag c with - | nd
      · rw [findTag_cons_element_skip tag t a c rest ht hc] at h
        rw [findAllTag_cons_element, if_neg ht,
          findAllTag_nil_of_findTag_none tag c hc,
          findAllTag_nil_of_findTag_none tag rest h]
        rfl
      · rw [findTag_cons_element_child tag t a c rest nd ht hc] at h
        cases h

theorem findAllTag_append (tag : String) :
    (l1 : List Node) → (l2 : List Node) →
      findAllTag tag (l1 ++ l2) = findAllTag tag l1 ++ findAllTag tag l2
  | [], l2 => by rw [List.nil_append, findAllTag_nil, List.nil_append]
  | Node.text s :: rest, l2 => by
    rw [List.cons_append, findAllTag_cons_text, findAllTag_cons_text]
    exact findAllTag_append tag rest l2
  | Node.element t a c :: rest, l2 => by
    rw [List.cons_append, findAllTag_cons_element, findAllTag_cons_element,
      findAllTag_append tag rest l2, List.append_assoc, List.append_assoc,
      List.append_assoc]

/-- Claim C7 (corrected): for an html element whose whole subtree holds
no head and no body element, the accessor creates exactly one head,
prepended as the first child, and exactly one body, appended last, so
head precedes body; and when an element of the requested tag exists
anywhere in the subtree, the first one in document order is returned and
nothing is created.  The original claim conditioned only on direct
children, which the descendant search does not honour. -/
theorem C7_accessor (attrs : List (String × String)) (children : List Node)
    (hh : findTag "head" children = none) (hb : findTag "body" children = none) :
    accessHeadBody (Node.element "html" attrs children) =
      (Node.element "head" [] [], Node.element "body" [] [],
        Node.element "html" attrs
          ((Node.element "head" [] [] :: children) ++ [Node.element "body" [] []])) ∧
    findAllTag "head" ((Node.element "head" [] [] :: children) ++ [Node.element "body" [] []])
      = [Node.element "head" [] []] ∧
    findAllTag "body" ((Node.element "head" [] [] :: children) ++ [Node.element "body" [] []])
      = [Node.element "body" [] []] ∧
    (∀ (node : Node) (tag : String) (ap : Bool) (c : Node),
      querySelector node tag = some c → getChildElement node tag ap = (c, node)) := by
  have hq1 : querySelector (Node.element "html" attrs children) "head" = none := by
    rw [show querySelector (Node.element "html" attrs children) "head"
      = findTag "head" children from rfl, hh]
  have h1 : getChildElement (Node.element "html" attrs children) "head" false =
      (Node.element "head" [] [],
        Node.element "html" attrs (Node.element "head" [] [] :: children)) := by
    rw [getChildElement, hq1]
    rfl
  have hf : findTag "body" (Node.element "head" [] [] :: children) = none := by
    rw [findTag_cons_element_skip "body" "head" [] [] children (by decide)
      (findTag_nil "body")]
    exact hb
  have hq2 : querySelector (Node.element "html" attrs
      (Node.element "head" [] [] :: children)) "body" = none := by
    rw [show querySelector (Node.element "html" attrs
      (Node.element "head" [] [] :: children)) "body"
      = findTag "body" (Node.element "head" [] [] :: children) from rfl, hf]
  have h2 : getChildElement (Node.element "html" attrs
      (Node.element "head" [] [] :: children)) "body" true =
      (Node.element "body" [] [],
        Node.element "html" attrs
          ((Node.element "head" [] [] :: children) ++ [Node.element "body" [] []])) := by
    rw [getChildElement, hq2]
    rfl
  refine ⟨?_, ?_, ?_, ?_⟩
  · rw [accessHeadBody, h1]
    rw [show (Node.element "head" [] [],
        Node.element "html" attrs (Node.element "head" [] [] :: children)).2
      = Node.element "html" attrs (Node.element "head" [] [] :: children) from rfl, h2]
  · rw [List.cons_append, findAllTag_cons_element, if_pos rfl, findAllTag_nil,
      findAllTag_append, findAllTag_nil_of_findTag_none "head" children hh,
      findAllTag_cons_element, if_neg (by decide : ¬ ("body" = "head")), findAllTag_nil]
    simp
  · rw [List.cons_append, findAllTag_cons_element,
      if_neg (by decide : ¬ ("head" = "body")), findAllTag_nil,
      findAllTag_append, findAllTag_nil_of_findTag_none "body" children hb,
      findAllTag_cons_element, if_pos rfl, findAllTag_nil]
    simp
  · intro node tag ap c hq
    rw [getChildElement, hq]

/-- Witness for C7: an html with one unrelated child gains a prepended
head and an appended body, and an existing element is returned as is. -/
theorem C7_accessor_witness :
    accessHeadBody (Node.element "html" [] [Node.text "x"]) =
      (Node.element "head" [] [], Node.element "body" [] [],
        Node.element "html" []
          ((Node.element "head" [] [] :: [Node.text "x"]) ++ [Node.element "body" [] []])) :=
  (C7_accessor [] [Node.text "x"]
    (by rw [findTag_cons_text, findTag_nil])
    (by rw [findTag_cons_text, findTag_nil])).1

/-- Counterexample to C7 as stated: an html element with no head child
and no body child, but with a head nested inside a div, gets no created
head at all, because the descendant search finds the nested one; the
final html still has zero head children, against the claimed creation of
one prepended head. -/
theorem C7_counterexample :
    countDirectTag "head" (childrenOf (Node.element "html" []
      [Node.element "div" [] [Node.element "head" [] []]])) = 0 ∧
    countDirectTag "body" (childrenOf (Node.element "html" []
      [Node.element "div" [] [Node.element "head" [] []]])) = 0 ∧
    countDirectTag "head" (childrenOf (accessHeadBody (Node.element "html" []
      [Node.element "div" [] [Node.element "head" [] []]])).2.2) = 0 := by
  have e1 : findTag "head" [Node.element "div" [] [Node.element "head" [] []]]
      = some (Node.element "head" [] []) :=
    findTag_cons_element_child "head" "div" [] [Node.element "head" [] []] []
      (Node.element "head" [] []) (by decide)
      (findTag_cons_element_self "head" "head" [] [] [] rfl)
  have e2 : findTag "body" [Node.element "div" [] [Node.element "head" [] []]]
      = none := by
    rw [findTag_cons_element_skip "body" "div" [] [Node.element "head" [] []] []
      (by decide)
      (by rw [findTag_cons_element_skip "body" "head" [] [] [] (by decide)
            (findTag_nil "body"), findTag_nil]),
      findTag_nil]
  have hq1 : querySelector (Node.element "html" []
      [Node.element "div" [] [Node.element "head" [] []]]) "head"
      = some (Node.element "head" [] []) := by
    rw [show querySelector (Node.element "html" []
      [Node.element "div" [] [Node.element "head" [] []]]) "head"
      = findTag "head" [Node.element "div" [] [Node.element "head" [] []]] from rfl, e1]
  have h1 : getChildElement (Node.element "html" []
      [Node.element "div" [] [Node.element "head" [] []]]) "head" false
      = (Node.element "head" [] [], Node.element "html" []
          [Node.element "div" [] [Node.element "head" [] []]]) := by
    rw [getChildElement, hq1]
  have hq2 : querySelector (Node.element "html" []
      [Node.element "div" [] [Node.element "head" [] []]]) "body" = none := by
    rw [show querySelector (Node.element "html" []
      [Node.element "div" [] [Node.element "head" [] []]]) "body"
      = findTag "body" [Node.element "div" [] [Node.element "head" [] []]] from rfl, e2]
  have h2 : getChildElement (Node.element "html" []
      [Node.element "div" [] [Node.element "head" [] []]]) "body" true
      = (Node.element "body" [] [], Node.element "html" []
          ([Node.element "div" [] [Node.element "head" [] []]]
            ++ [Node.element "body" [] []])) := by
    rw [getChildElement, hq2]
    rfl
  have ha : accessHeadBody (Node.element "html" []
      [Node.element "div" [] [Node.element "head" [] []]])
      = (Node.element "head" [] [], Node.element "body" [] [],
          Node.element "html" []
            ([Node.element "div" [] [Node.element "head" [] []]]
              ++ [Node.element "body" [] []])) := by
    rw [accessHeadBody, h1]
    rw [show ((Node.element "head" [] [], Node.element "html" []
      [Node.element "div" [] [Node.element "head" [] []]]) : Node × Node).2
      = Node.element "html" [] [Node.element "div" [] [Node.element "head" [] []]]
      from rfl, h2]
  refine ⟨by decide, by decide, ?_⟩
  rw [ha]
  decide

theorem find?_append_none {α : Type} (p : α → Bool) :
    ∀ l1 l2 : List α, l1.find? p = none → (l1 ++ l2).find? p = l2.find? p
  | [], l2, _ => rfl
  | a :: rest, l2, h => by
    rw [List.find?_cons] at h
    rcases hp : p a with - | -
    · rw [hp] at h
      rw [List.cons_append, List.find?_cons, hp]
      exact find?_append_none p rest l2 h
    · rw [hp] at h
      cases h

theorem find?_append_some {α : Type} (p : α → Bool) :
    ∀ l1 l2 : List α, ∀ a, l1.find? p = some a → (l1 ++ l2).find? p = some a
  | [], _, _, h => by cases h
  | b :: rest, l2, a, h => by
    rw [List.find?_cons] at h
    rcases hp : p b with - | -
    · rw [hp] at h
      rw [List.cons_append, List.find?_cons, hp]
      exact find?_append_some p rest l2 a h
    · rw [hp] at h
      rw [List.cons_append, List.find?_cons, hp]
      exact h

theorem exchangeChild_self : ∀ (h : List Node) (old : Node),
    exchangeChild h old old = h
  | [], _ => rfl
  | c :: rest, old => by
    rw [exchangeChild]
    by_cases hc : c = old
    · rw [if_pos hc, hc]
    · rw [if_neg hc, exchangeChild_self rest old]

theorem find?_exchangeChild_found (p : Node → Bool) (old new : Node)
    (hpn : p new = true) :
    ∀ M : List Node, M.find? p = some old →
      (exchangeChild M old new).find? p = some new
  | [], h => by cases h
  | x :: rest, h => by
    rw [List.find?_cons] at h
    by_cases hx : x = old
    · rw [exchangeChild, if_pos hx, List.find?_cons, hpn]
    · rw [exchangeChild, if_neg hx, List.find?_cons]
      rcases hp : p x with - | -
      · rw [hp] at h
        exact find?_exchangeChild_found p old new hpn rest h
      · rw [hp] at h
        injection h with h
        exact absurd h hx

theorem find?_exchangeChild_other (p : Node → Bool) (old new : Node)
    (hpo : p old = false) (hpn : p new = false) :
    ∀ M : List Node, (exchangeChild M old new).find? p = M.find? p
  | [] => rfl
  | x :: rest => by
    simp only [exchangeChild]
    by_cases hx : x = old
    · rw [if_pos hx, List.find?_cons, List.find?_cons, hpn, hx, hpo]
    · rw [if_neg hx, List.find?_cons, List.find?_cons]
      cases hp : p x with
      | false =>
        exact find?_exchangeChild_other p old new hpo hpn rest
      | true =>
        rfl

theorem filter_exchangeChild (p : Node → Bool) (old new : Node)
    (hpo : p old = true) (hpn : p new = true) :
    ∀ h : List Node,
      (exchangeChild h old new).filter p = exchangeChild (h.filter p) old new
  | [] => rfl
  | c :: rest => by
    simp only [exchangeChild]
    by_cases hc : c = old
    · rw [if_pos hc, List.filter_cons, List.filter_cons, hpn, hc, hpo]
      simp [exchangeChild]
    · rw [if_neg hc, List.filter_cons, List.filter_cons]
      cases hp : p c with
      | false =>
        simp only [if_neg Bool.false_ne_true]
        exact filter_exchangeChild p old new hpo hpn rest
      | true =>
        simp only [if_pos rfl, exchangeChild, if_neg hc]
        rw [filter_exchangeChild p old new hpo hpn rest]
        simp

theorem foldl_fixed {α β : Type} (f : α → β → α) (a : α) :
    ∀ l : List β, (∀ b ∈ l, f a b = a) → l.foldl f a = a
  | [], _ => rfl
  | b :: rest, h => by
    rw [List.foldl_cons, h b (List.mem_cons_self _ _)]
    exact foldl_fixed f a rest (fun x hx => h x (List.mem_cons_of_mem _ hx))

theorem noTagInside_leaf (tag t : String) (na : List (String × String)) :
    noTagInside tag (Node.element t na []) = true := by
  rw [show noTagInside tag (Node.element t na []) = (findAllTag tag []).isEmpty from rfl,
    findAllTag_nil]
  rfl

theorem noTagInside_text (tag s : String) : noTagInside tag (Node.text s) = true := rfl

theorem topOnly_append_canon (tag : String) (h : List Node) (t' : String)
    (na : List (String × String)) (htop : topOnly tag h = true) :
    topOnly tag (h ++ [nlNode, Node.element t' na []]) = true := by
  rw [topOnly, List.all_append]
  rw [topOnly] at htop
  rw [htop, Bool.true_and, List.all_cons, List.all_cons, List.all_nil,
    show noTagInside tag nlNode = true from rfl, noTagInside_leaf]
  rfl

theorem topOnly_exchangeChild (tag : String) (old : Node) (t' : String)
    (na : List (String × String)) :
    ∀ h : List Node, topOnly tag h = true →
      topOnly tag (exchangeChild h old (Node.element t' na [])) = true
  | [], _ => rfl
  | c :: rest, htop => by
    rw [topOnly, List.all_cons, Bool.and_eq_true] at htop
    simp only [exchangeChild]
    by_cases hc : c = old
    · rw [if_pos hc, topOnly, List.all_cons, noTagInside_leaf, Bool.true_and]
      exact htop.2
    · rw [if_neg hc, topOnly, List.all_cons, Bool.and_eq_true]
      exact ⟨htop.1, topOnly_exchangeChild tag old t' na rest htop.2⟩

theorem findAllTag_eq_filter (tag : String) :
    ∀ h : List Node, topOnly tag h = true →
      findAllTag tag h = h.filter (fun nd => tagOf nd = some tag)
  | [], _ => by rw [findAllTag_nil, List.filter_nil]
  | Node.text s :: rest, htop => by
    rw [topOnly, List.all_cons, Bool.and_eq_true] at htop
    rw [findAllTag_cons_text, List.filter_cons]
    rw [if_neg (by simp [tagOf])]
    exact findAllTag_eq_filter tag rest htop.2
  | Node.element t a c :: rest, htop => by
    rw [topOnly, List.all_cons, Bool.and_eq_true] at htop
    have hcnil : findAllTag tag c = [] := by
      have := htop.1
      rw [show noTagInside tag (Node.element t a c) = (findAllTag tag c).isEmpty from rfl]
        at this
      exact List.isEmpty_iff.mp this
    rw [findAllTag_cons_element, hcnil, List.filter_cons]
    by_cases ht : t = tag
    · rw [if_pos ht, if_pos (by simp [tagOf, ht])]
      rw [findAllTag_eq_filter tag rest htop.2]
      simp
    · rw [if_neg ht, if_neg (by simp [tagOf, ht])]
      rw [findAllTag_eq_filter tag rest htop.2]
      simp

theorem tagOf_of_mem_findAllTag (tag : String) :
    ∀ l : List Node, ∀ nd : Node, nd ∈ findAllTag tag l → tagOf nd = some tag
  | [], nd, h => by
    rw [findAllTag_nil] at h
    cases h
  | Node.text s :: rest, nd, h => by
    rw [findAllTag_cons_text] at h
    exact tagOf_of_mem_findAllTag tag rest nd h
  | Node.element t a c :: rest, nd, h => by
    rw [findAllTag_cons_element] at h
    rcases List.mem_append.mp h with h1 | h2
    · rcases List.mem_append.mp h1 with h3 | h4
      · by_cases ht : t = tag
        · rw [if_pos ht] at h3
          rw [List.mem_singleton.mp h3, tagOf, ht]
        · rw [if_neg ht] at h3
          cases h3
      · exact tagOf_of_mem_findAllTag tag c nd h4
    · exact tagOf_of_mem_findAllTag tag rest nd h2

theorem merge_step_spec (tag key kv : String) (na : List (String × String))
    (snapshot acc : List Node)
    (hattr : attrOf (Node.element tag na []) key = some kv)
    (htop : topOnly tag acc = true)
    (hsnaptag : ∀ nd, snapshot.find? (fun n2 => attrOf n2 key = some kv) = some nd →
      tagOf nd = some tag)
    (hagree : (findAllTag tag acc).find? (fun n2 => attrOf n2 key = some kv) =
      snapshot.find? (fun n2 => attrOf n2 key = some kv)) :
    ((findAllTag tag (mergeByAttr key kv snapshot acc (Node.element tag na []))).find?
        (fun n2 => attrOf n2 key = some kv) = some (Node.element tag na [])) ∧
    (∀ q : String, q ≠ kv →
      (findAllTag tag (mergeByAttr key kv snapshot acc (Node.element tag na []))).find?
        (fun n2 => attrOf n2 key = some q) =
      (findAllTag tag acc).find? (fun n2 => attrOf n2 key = some q)) ∧
    topOnly tag (mergeByAttr key kv snapshot acc (Node.element tag na [])) = true := by
  cases hs : snapshot.find? (fun n2 => attrOf n2 key = some kv) with
  | none =>
    have hm : mergeByAttr key kv snapshot acc (Node.element tag na []) =
        acc ++ [nlNode, Node.element tag na []] := by
      rw [mergeByAttr, hs]
    rw [hm]
    have hlist : findAllTag tag [nlNode, Node.element tag na []]
        = [Node.element tag na []] := by
      rw [show (nlNode : Node) = Node.text "\n  " from rfl, findAllTag_cons_text,
        findAllTag_cons_element, if_pos rfl, findAllTag_nil]
      simp
    have hfa : findAllTag tag (acc ++ [nlNode, Node.element tag na []]) =
        findAllTag tag acc ++ [Node.element tag na []] := by
      rw [findAllTag_append, hlist]
    refine ⟨?_, ?_, ?_⟩
    · rw [hfa, find?_append_none _ _ _ (by rw [hagree, hs])]
      simp [List.find?_cons, hattr]
    · intro q hq
      rw [hfa]
      cases hA : (findAllTag tag acc).find? (fun n2 => attrOf n2 key = some q) with
      | some x => rw [find?_append_some _ _ _ _ hA]
      | none =>
        rw [find?_append_none _ _ _ hA]
        have hpf : decide (attrOf (Node.element tag na []) key = some q) = false := by
          rw [hattr]
          exact decide_eq_false (fun hh => hq (Option.some.inj hh).symm)
        rw [List.find?_cons, hpf]
        rfl
    · exact topOnly_append_canon tag acc tag na htop
  | some old =>
    have hm : mergeByAttr key kv snapshot acc (Node.element tag na []) =
        exchangeChild acc old (Node.element tag na []) := by
      rw [mergeByAttr, hs]
    have hold_tag : tagOf old = some tag := hsnaptag old hs
    have hptrue :=
      @List.find?_some Node (fun n2 => decide (attrOf n2 key = some kv)) old snapshot hs
    have hold_attr : attrOf old key = some kv := of_decide_eq_true hptrue
    have hacc_find : (findAllTag tag acc).find? (fun n2 => attrOf n2 key = some kv)
        = some old := by
      rw [hagree, hs]
    rw [hm]
    have htop2 : topOnly tag (exchangeChild acc old (Node.element tag na [])) = true :=
      topOnly_exchangeChild tag old tag na acc htop
    have hfa : findAllTag tag (exchangeChild acc old (Node.element tag na [])) =
        exchangeChild (findAllTag tag acc) old (Node.element tag na []) := by
      rw [findAllTag_eq_filter tag _ htop2,
        filter_exchangeChild _ old _ (decide_eq_true hold_tag) (decide_eq_true rfl) acc,
        ← findAllTag_eq_filter tag acc htop]
    refine ⟨?_, ?_, ?_⟩
    · rw [hfa]
      exact find?_exchangeChild_found _ old _ (decide_eq_true hattr)
        (findAllTag tag acc) hacc_find
    · intro q hq
      rw [hfa]
      refine find?_exchangeChild_other _ old _ ?_ ?_ (findAllTag tag acc)
      · show decide (attrOf old key = some q) = false
        rw [hold_attr]
        exact decide_eq_false (fun hh => hq (Option.some.inj hh).symm)
      · show decide (attrOf (Node.element tag na []) key = some q) = false
        rw [hattr]
        exact decide_eq_false (fun hh => hq (Option.some.inj hh).symm)
    · exact htop2

theorem metaDec_fold_spec (h : List Node) (cfg : List (String × String)) :
    ∀ acc : List Node,
      (cfg.map Prod.fst).Nodup →
      topOnly "meta" acc = true →
      (∀ p ∈ cfg, (findAllTag "meta" acc).find? (fun n2 => attrOf n2 "name" = some p.1) =
        (findAllTag "meta" h).find? (fun n2 => attrOf n2 "name" = some p.1)) →
      (∀ p ∈ cfg,
        (findAllTag "meta" (cfg.foldl (fun a q => mergeByAttr "name" q.1
            (findAllTag "meta" h) a (metaElem q.1 q.2)) acc)).find?
          (fun n2 => attrOf n2 "name" = some p.1) = some (metaElem p.1 p.2)) ∧
      (∀ q2 : String, q2 ∉ cfg.map Prod.fst →
        (findAllTag "meta" (cfg.foldl (fun a q => mergeByAttr "name" q.1
            (findAllTag "meta" h) a (metaElem q.1 q.2)) acc)).find?
          (fun n2 => attrOf n2 "name" = some q2) =
        (findAllTag "meta" acc).find? (fun n2 => attrOf n2 "name" = some q2)) ∧
      topOnly "meta" (cfg.foldl (fun a q => mergeByAttr "name" q.1
        (findAllTag "meta" h) a (metaElem q.1 q.2)) acc) = true := by
  induction cfg with
  | nil =>
    intro acc _ htop _
    exact ⟨fun p hp => absurd hp (List.not_mem_nil p), fun q2 _ => rfl, htop⟩
  | cons pr rest ih =>
    intro acc hnodup htop hagree
    rw [List.map_cons, List.nodup_cons] at hnodup
    have hstep := merge_step_spec "meta" "name" pr.1 [("name", pr.1), ("content", pr.2)]
      (findAllTag "meta" h) acc rfl htop
      (fun nd hnd => tagOf_of_mem_findAllTag "meta" h nd (List.mem_of_find?_eq_some hnd))
      (hagree pr (List.mem_cons_self _ _))
    rw [show Node.element "meta" [("name", pr.1), ("content", pr.2)] []
      = metaElem pr.1 pr.2 from rfl] at hstep
    obtain ⟨S1, S2, S3⟩ := hstep
    have hagree2 : ∀ p ∈ rest,
        (findAllTag "meta" (mergeByAttr "name" pr.1 (findAllTag "meta" h) acc
          (metaElem pr.1 pr.2))).find? (fun n2 => attrOf n2 "name" = some p.1) =
        (findAllTag "meta" h).find? (fun n2 => attrOf n2 "name" = some p.1) := by
      intro p hp
      have hne : p.1 ≠ pr.1 := by
        intro hEq
        exact hnodup.1 (List.mem_map.mpr ⟨p, hp, hEq⟩)
      rw [S2 p.1 hne]
      exact hagree p (List.mem_cons_of_mem _ hp)
    obtain ⟨T1, T2, T3⟩ := ih (mergeByAttr "name" pr.1 (findAllTag "meta" h) acc
      (metaElem pr.1 pr.2)) hnodup.2 S3 hagree2
    rw [List.foldl_cons]
    refine ⟨?_, ?_, ?_⟩
    · intro p hp
      rcases List.mem_cons.mp hp with hpeq | hp2
      · subst hpeq
        rw [T2 p.1 hnodup.1]
        exact S1
      · exact T1 p hp2
    · intro q2 hq2
      rw [List.map_cons, List.mem_cons] at hq2
      push_neg at hq2
      rw [T2 q2 hq2.2, S2 q2 hq2.1]
    · exact T3

theorem scf_nil (tag c : String) : setContentFirst tag c [] = ([], false) := by
  simp [setContentFirst]

theorem scf_cons_text (tag c s : String) (rest : List Node) :
    setContentFirst tag c (Node.text s :: rest) =
      (Node.text s :: (setContentFirst tag c rest).1, (setContentFirst tag c rest).2) := by
  simp [setContentFirst]

theorem scf_cons_element_self (tag c t : String) (a : List (String × String))
    (cs rest : List Node) (ht : t = tag) :
    setContentFirst tag c (Node.element t a cs :: rest) =
      (Node.element t a [Node.text c] :: rest, true) := by
  simp [setContentFirst, ht]

theorem scf_cons_element_down (tag c t : String) (a : List (String × String))
    (cs rest : List Node) (ht : ¬ t = tag)
    (hc : (setContentFirst tag c cs).2 = true) :
    setContentFirst tag c (Node.element t a cs :: rest) =
      (Node.element t a (setContentFirst tag c cs).1 :: rest, true) := by
  simp [setContentFirst, ht, hc]

theorem scf_cons_element_skip (tag c t : String) (a : List (String × String))
    (cs rest : List Node) (ht : ¬ t = tag)
    (hc : (setContentFirst tag c cs).2 = false) :
    setContentFirst tag c (Node.element t a cs :: rest) =
      (Node.element t a cs :: (setContentFirst tag c rest).1,
        (setContentFirst tag c rest).2) := by
  simp [setContentFirst, ht, hc]

theorem scf_idem_found (tag c : String) :
    ∀ l : List Node, (setContentFirst tag c l).2 = true →
      setContentFirst tag c (setContentFirst tag c l).1 =
        ((setContentFirst tag c l).1, true)
  | [], h => by
    rw [scf_nil] at h
    cases h
  | Node.text s :: rest, h => by
    rw [scf_cons_text] at h
    rw [scf_cons_text, scf_cons_text, scf_idem_found tag c rest h]
  | Node.element t a cs :: rest, h => by
    by_cases ht : t = tag
    · rw [scf_cons_element_self tag c t a cs rest ht,
        scf_cons_element_self tag c t a [Node.text c] rest ht]
    · by_cases hcs : (setContentFirst tag c cs).2 = true
      · have ihc := scf_idem_found tag c cs hcs
        rw [scf_cons_element_down tag c t a cs rest ht hcs,
          scf_cons_element_down tag c t a (setContentFirst tag c cs).1 rest ht
            (by rw [ihc]), ihc]
      · have hcs2 : (setContentFirst tag c cs).2 = false :=
          Bool.eq_false_iff.mpr hcs
        rw [scf_cons_element_skip tag c t a cs rest ht hcs2] at h
        rw [scf_cons_element_skip tag c t a cs rest ht hcs2,
          scf_cons_element_skip tag c t a cs (setContentFirst tag c rest).1 ht hcs2,
          scf_idem_found tag c rest h]

theorem scf_not_found_id (tag c : String) :
    ∀ l : List Node, (setContentFirst tag c l).2 = false →
      (setContentFirst tag c l).1 = l
  | [], _ => by rw [scf_nil]
  | Node.text s :: rest, h => by
    rw [scf_cons_text] at h
    rw [scf_cons_text]
    rw [show (Node.text s :: (setContentFirst tag c rest).1,
      (setContentFirst tag c rest).2).1
      = Node.text s :: (setContentFirst tag c rest).1 from rfl,
      scf_not_found_id tag c rest h]
  | Node.element t a cs :: rest, h => by
    by_cases ht : t = tag
    · rw [scf_cons_element_self tag c t a cs rest ht] at h
      cases h
    · by_cases hcs : (setContentFirst tag c cs).2 = true
      · rw [scf_cons_element_down tag c t a cs rest ht hcs] at h
        cases h
      · have hcs2 : (setContentFirst tag c cs).2 = false :=
          Bool.eq_false_iff.mpr hcs
        rw [scf_cons_element_skip tag c t a cs rest ht hcs2] at h
        rw [scf_cons_element_skip tag c t a cs rest ht hcs2]
        rw [show (Node.element t a cs :: (setContentFirst tag c rest).1,
          (setContentFirst tag c rest).2).1
          = Node.element t a cs :: (setContentFirst tag c rest).1 from rfl,
          scf_not_found_id tag c rest h]

theorem scf_append_found (tag c : String) :
    ∀ l : List Node, (setContentFirst tag c l).2 = false →
      setContentFirst tag c (l ++ [nlNode, Node.element tag [] [Node.text c]]) =
        (l ++ [nlNode, Node.element tag [] [Node.text c]], true)
  | [], _ => by
    rw [List.nil_append, show (nlNode : Node) = Node.text "\n  " from rfl,
      scf_cons_text, scf_cons_element_self tag c tag [] [Node.text c] [] rfl]
  | Node.text s :: rest, h => by
    rw [scf_cons_text] at h
    rw [List.cons_append, scf_cons_text, scf_append_found tag c rest h]
  | Node.element t a cs :: rest, h => by
    by_cases ht : t = tag
    · rw [scf_cons_element_self tag c t a cs rest ht] at h
      cases h
    · by_cases hcs : (setContentFirst tag c cs).2 = true
      · rw [scf_cons_element_down tag c t a cs rest ht hcs] at h
        cases h
      · have hcs2 : (setContentFirst tag c cs).2 = false :=
          Bool.eq_false_iff.mpr hcs
        rw [scf_cons_element_skip tag c t a cs rest ht hcs2] at h
        rw [List.cons_append,
          scf_cons_element_skip tag c t a cs
            (rest ++ [nlNode, Node.element tag [] [Node.text c]]) ht hcs2,
          scf_append_found tag c rest h]

/-- Claim C8: the meta, title and favicon decorators are idempotent on a
head whose meta and link elements all sit at top level and whose meta
configuration has distinct names: a second application with the same
configuration replaces each decoration with an identical one in place and
appends nothing. -/
theorem C8_decorator_idempotence (metaCfg : List (String × String)) (t fav : String)
    (h : List Node)
    (hkeys : (metaCfg.map Prod.fst).Nodup)
    (hm : topOnly "meta" h = true)
    (hl : topOnly "link" h = true) :
    metaDec metaCfg (metaDec metaCfg h) = metaDec metaCfg h ∧
    titleDec t (titleDec t h) = titleDec t h ∧
    favDec fav (favDec fav h) = favDec fav h := by
  refine ⟨?_, ?_, ?_⟩
  · obtain ⟨star, -, -⟩ := metaDec_fold_spec h metaCfg h hkeys hm (fun p _ => rfl)
    have hfix : ∀ p ∈ metaCfg,
        mergeByAttr "name" p.1 (findAllTag "meta" (metaDec metaCfg h)) (metaDec metaCfg h)
          (metaElem p.1 p.2) = metaDec metaCfg h := by
      intro p hp
      rw [mergeByAttr]
      rw [show (findAllTag "meta" (metaDec metaCfg h)).find?
        (fun n2 => attrOf n2 "name" = some p.1) = some (metaElem p.1 p.2) from star p hp]
      exact exchangeChild_self (metaDec metaCfg h) (metaElem p.1 p.2)
    show metaCfg.foldl (fun acc p => mergeByAttr "name" p.1
      (findAllTag "meta" (metaDec metaCfg h)) acc (metaElem p.1 p.2)) (metaDec metaCfg h)
      = metaDec metaCfg h
    exact foldl_fixed _ _ metaCfg hfix
  · cases hr : (setContentFirst "title" t h).2 with
    | true =>
      have h1 : titleDec t h = (setContentFirst "title" t h).1 := by
        rw [titleDec, if_pos hr]
      rw [h1, titleDec]
      simp [scf_idem_found "title" t h hr]
    | false =>
      have h1 : titleDec t h = h ++ [nlNode, Node.element "title" [] [Node.text t]] := by
        rw [titleDec, if_neg (by rw [hr]; exact Bool.false_ne_true)]
      rw [h1, titleDec]
      simp [scf_append_found "title" t h hr]
  · have hstep := merge_step_spec "link" "rel" "shortcut icon"
      [("rel", "shortcut icon"), ("href", String.mk (baseNameChars fav.data))]
      (findAllTag "link" h) h rfl hl
      (fun nd hnd => tagOf_of_mem_findAllTag "link" h nd (List.mem_of_find?_eq_some hnd))
      rfl
    rw [show Node.element "link"
      [("rel", "shortcut icon"), ("href", String.mk (baseNameChars fav.data))] []
      = favElem fav from rfl] at hstep
    obtain ⟨S1, -, -⟩ := hstep
    show mergeByAttr "rel" "shortcut icon" (findAllTag "link" (favDec fav h))
      (favDec fav h) (favElem fav) = favDec fav h
    rw [mergeByAttr]
    rw [show (findAllTag "link" (favDec fav h)).find?
      (fun n2 => attrOf n2 "rel" = some "shortcut icon") = some (favElem fav) from S1]
    exact exchangeChild_self (favDec fav h) (favElem fav)

/-- Witness for C8: the three decorators applied twice to an empty head
with one configured meta pair agree with one application. -/
theorem C8_decorator_idempotence_witness :
    metaDec [("a", "x")] (metaDec [("a", "x")] []) = metaDec [("a", "x")] [] ∧
    titleDec "T" (titleDec "T" []) = titleDec "T" [] ∧
    favDec "img/icon.png" (favDec "img/icon.png" []) = favDec "img/icon.png" [] :=
  C8_decorator_idempotence [("a", "x")] "T" "img/icon.png" [] (by decide) rfl rfl
